import Mathlib

/-!
# carafe: command model, test executor, line transform and brew version checks

A shallow embedding of the Go packages `shell`, `shell/testshell` and `brew`
of `macadmins/carafe`, followed by theorems about them.

Conventions of the embedding.

* Go objects reached through pointers (`*shell.Cmd`, `io.Writer`) live in a
  `World`: a store of commands and a store of writers, both addressed by
  natural numbers.  A nil interface or pointer field is `none`.
* A writer is recorded by the list of payloads it has received, oldest first.
* A Go `(value, error)` pair is a Lean pair whose second component is an
  `Option`; `none` is the nil error.
* A nil-pointer panic is an explicit outcome, so every function is total.
* Libraries outside the repository (`os.Environ`, `shellquote.Join`,
  `regexp`, `encoding/json`, `go-version`) are taken as parameters.
-/

namespace shell

/-! ## `shell/cmd.go` -/

/-- The fields of `exec.Cmd` the repository reads or writes.  `Stdin`,
`Stdout` and `Stderr` hold the address of the attached stream, `Process` the
pid of the attached `os.Process`. -/
structure Cmd where
  Path : String := ""
  Args : List String := []
  Env : List String := []
  Dir : String := ""
  Stdin : Option Nat := none
  Stdout : Option Nat := none
  Stderr : Option Nat := none
  Process : Option Int := none

/-- Go's `string` type. -/
abbrev GoString := String

/-- Go's `<` on strings: lexicographic comparison of the contents, element by
element (a shorter string that is an initial segment of a longer one is less). -/
def lessChars : List Char → List Char → Bool
  | _, [] => false
  | [], _ :: _ => true
  | a :: as, b :: bs =>
    if a.toNat < b.toNat then true
    else if b.toNat < a.toNat then false
    else lessChars as bs

/-- Go's `cmp.Less` on two strings. -/
def cmpLess (a b : String) : Bool := lessChars a.data b.data

/-- The standard library's `slices.Sort` on strings: the ascending
rearrangement of the slice (for a linear order there is only one). -/
def slicesSort (x : List String) : List String :=
  x.insertionSort (fun a b => cmpLess b a = false)

/-- The loop of `slices.BinarySearch`: `i, j := 0, n; for i < j { h := (i+j)/2;
if cmp.Less(x[h], target) { i = h + 1 } else { j = h } }`.  The first argument
bounds the number of iterations; `j - i` shrinks on each one. -/
def binarySearchLoop (x : List String) (target : String) : Nat → Nat → Nat → Nat
  | 0, i, _ => i
  | fuel + 1, i, j =>
    if i < j then
      let h := (i + j) / 2
      if cmpLess (x.getD h "") target then binarySearchLoop x target fuel (h + 1) j
      else binarySearchLoop x target fuel i h
    else i

/-- The standard library's `slices.BinarySearch`: the position found by the
loop, and whether the target sits there. -/
def BinarySearch (x : List String) (target : String) : Nat × Bool :=
  let n := x.length
  let i := binarySearchLoop x target n 0 n
  (i, decide (i < n) && (x.getD i "" == target))

/-- `newEnvVars` of `cmd.go`, with the result of `os.Environ()` as `environ`. -/
def newEnvVars (environ : List String) (envs : List String) : List String :=
  if envs.length = 0 then []
  else
    let osEnv := slicesSort environ
    envs.foldl (fun newEnvs a => if (BinarySearch osEnv a).2 then newEnvs else newEnvs ++ [a]) []

/-- What a command's rendering reads from outside the repository: the ambient
environment (`os.Environ()`) and `shellquote.Join`. -/
structure Host where
  Environ : List String
  Join : List String → String

/-- `Cmd.String` of `cmd.go`. -/
def Cmd.String (h : Host) (c : Cmd) : GoString :=
  let cmdParts : List GoString := []
  let cmdParts := cmdParts ++ newEnvVars h.Environ c.Env
  let cmdParts := cmdParts ++ c.Args
  h.Join cmdParts


/-- `Cmd.Format` of `cmd.go`: the text printed for verb `s` and for verb `v`;
any other verb prints nothing. -/
def Cmd.Format (h : Host) (c : Cmd) (verb : Char) : GoString :=
  if verb = 's' then c.String h
  else if verb = 'v' then
    "`" ++ c.String h ++ "`" ++ (if c.Dir ≠ "" then " in " ++ c.Dir else "")
  else ""

/-! ## The line-prefixing writer (`shell/prepender.go`) -/

/-- Modelled from the spec: the destination sink of the line-prefixing writer
(`prepender.go` is not among the sources).  A sink has a state and a write
operation that either fails or yields the next state. -/
structure Sink (σ : Type) where
  write : σ → List Char → Except String σ

/-- Modelled from the spec: "a sink that does not fail". -/
def Sink.NeverFails {σ : Type} (s : Sink σ) : Prop :=
  ∀ st d, ∃ st2, s.write st d = Except.ok st2

/-- Modelled from the spec: the state of the line-prefixing writer of
`prepender.go` (absent from the sources): "destination sink, prefix string,
and an internal partial-line buffer carrying any bytes received since the last
line terminator".  A byte slice is a list with one element per byte. -/
structure prependingWriter (σ : Type) where
  w : σ
  pfx : List Char
  buf : List Char
  deriving DecidableEq

/-- Modelled from the spec: the constructor of the writer, with an empty
buffer. -/
def NewPrependingWriter {σ : Type} (w : σ) (pfx : String) : prependingWriter σ :=
  { w := w, pfx := pfx.data, buf := [] }

/-- The escape character, `\033`. -/
def ESC : Char := Char.ofNat 27

/-- Modelled from the spec: removal of "CSI-style sequences of the form ESC `[`
... command-byte" (`stripLine` is absent from the sources).  `pending` holds the
characters of a sequence that has begun (ESC, then `[`, then digits and `;`); a
letter completes and drops it, anything else puts it back as it is. -/
def stripAnsiFrom (pending : List Char) : List Char → List Char
  | [] => pending
  | c :: cs =>
    match pending with
    | [] => if c = ESC then stripAnsiFrom [c] cs else c :: stripAnsiFrom [] cs
    | [_] =>
      if c = '[' then stripAnsiFrom (pending ++ [c]) cs
      else if c = ESC then pending ++ stripAnsiFrom [c] cs
      else pending ++ c :: stripAnsiFrom [] cs
    | _ =>
      if c.isDigit || c = ';' then stripAnsiFrom (pending ++ [c]) cs
      else if c.isAlpha then stripAnsiFrom [] cs
      else if c = ESC then pending ++ stripAnsiFrom [c] cs
      else pending ++ c :: stripAnsiFrom [] cs

/-- Modelled from the spec: "trim leading/trailing whitespace". -/
def trimSpace (l : List Char) : List Char :=
  ((l.dropWhile Char.isWhitespace).reverse.dropWhile Char.isWhitespace).reverse

/-- Modelled from the spec: `stripLine`, "strip ANSI escape sequences ..., then
trim leading/trailing whitespace". -/
def stripLine (l : List Char) : List Char :=
  trimSpace (stripAnsiFrom [] l)

/-- Modelled from the spec: what is done with one complete line: "If the
resulting stripped line is empty, discard it ... Otherwise emit
`prefix + strippedLine + "\n"` to the destination sink." -/
def emitLine {σ : Type} (s : Sink σ) (pfx : List Char) (st : σ) (line : List Char) :
    Except String σ :=
  if stripLine line = [] then Except.ok st
  else s.write st (pfx ++ stripLine line ++ ['\n'])

/-- Modelled from the spec: the bytes one line adds to the sink: nothing when
the line is empty after stripping, `prefix + strippedLine + "\n"` otherwise. -/
def lineOut (pfx : List Char) (line : List Char) : List Char :=
  if stripLine line = [] then [] else pfx ++ stripLine line ++ ['\n']

/-- Modelled from the spec: the result of scanning the buffer: the sink, the
bytes left in the buffer and the sink's failure, if any. -/
structure Scanned (σ : Type) where
  w : σ
  buf : List Char
  err : Option String

/-- Modelled from the spec: the scan of the buffer for line terminators,
"where `\r\n`, lone `\r`, and lone `\n` are each treated as a single logical
terminator".  `cur` is the line read so far.  At the end of the input `cur` is
the incomplete trailing line, and its bytes stay in the buffer: "Bytes
belonging to an incomplete trailing line (no terminator yet seen) remain
buffered for the next Write call" (step 4).  The line as it stands is also
emitted in this call: the case `line without trailing newline` of
`prepender_test.go` (input `single line`, expected output `> single line\n`
after the one call) fixes that, against the spec's "must not emit anything
until the terminator arrives"; it is the one place where a test is followed
instead of the spec.  When the sink fails, the line that could not be emitted
and what follows it stay in the buffer ("the internal partial-line buffer
retains whatever was not yet flushed"). -/
def scanLines {σ : Type} (s : Sink σ) (pfx : List Char) (st : σ) (cur : List Char) :
    List Char → Scanned σ
  | [] =>
    match emitLine s pfx st cur with
    | Except.ok st2 => { w := st2, buf := cur, err := none }
    | Except.error e => { w := st, buf := cur, err := some e }
  | '\r' :: '\n' :: rest =>
    match emitLine s pfx st cur with
    | Except.ok st2 => scanLines s pfx st2 [] rest
    | Except.error e => { w := st, buf := cur ++ '\r' :: '\n' :: rest, err := some e }
  | c :: rest =>
    if c = '\n' ∨ c = '\r' then
      match emitLine s pfx st cur with
      | Except.ok st2 => scanLines s pfx st2 [] rest
      | Except.error e => { w := st, buf := cur ++ c :: rest, err := some e }
    else scanLines s pfx st (cur ++ [c]) rest

/-- Modelled from the spec: `Write` of the line-prefixing writer (§4.3): the
incoming bytes join the buffer (step 1), the buffer is scanned and every line
found is emitted (steps 2 and 3), the bytes of the incomplete trailing line
stay buffered (step 4), and the count returned is `len(inputBytes)` (step 5); a
sink failure is handed on. -/
def prependingWriter.Write {σ : Type} (s : Sink σ) (pw : prependingWriter σ) (b : List Char) :
    (Nat × Option String) × prependingWriter σ :=
  let r := scanLines s pw.pfx pw.w [] (pw.buf ++ b)
  ((b.length, r.err), { pw with w := r.w, buf := r.buf })

/-- Modelled from the spec: a sink that is a `bytes.Buffer`, as in the tests: a
write appends and does not fail. -/
def bufferSink : Sink (List Char) :=
  { write := fun st d => Except.ok (st ++ d) }

/-- Modelled from the spec: a sequence of `Write` calls on one writer, results
ignored: the writer after them. -/
def prependingWriter.WriteAll {σ : Type} (s : Sink σ) (pw : prependingWriter σ) :
    List (List Char) → prependingWriter σ
  | [] => pw
  | b :: bs => prependingWriter.WriteAll s (pw.Write s b).2 bs

/-- An input made of terminated lines: each line comes with its terminator, and
the input is their concatenation in order. -/
def linesInput : List (List Char × List Char) → List Char
  | [] => []
  | l :: ls => l.1 ++ l.2 ++ linesInput ls

/-- Modelled from the spec: the bytes the lines of an input add to the sink, in
order: `lineOut` of each line. -/
def linesOutput (pfx : List Char) : List (List Char × List Char) → List Char
  | [] => []
  | l :: ls => lineOut pfx l.1 ++ linesOutput pfx ls

end shell

namespace testshell

/-! ## `shell/testshell/executor.go` -/

/-- A compiled `*regexp.Regexp`, known by what `MatchString` answers. -/
structure Regexp where
  MatchString : String → Bool

/-- What one call of the executor takes from outside the repository: the host
of the command rendering, and the order in which `range` visits the entries of
each of the two maps on this call (Go leaves that order open; it is a
rearrangement of the entries). -/
structure Runtime where
  host : shell.Host
  rangeStdouts : List (Regexp × String) → List (Regexp × String)
  rangeStderrs : List (Regexp × String) → List (Regexp × String)
  rangeStdouts_perm : ∀ m, (rangeStdouts m).Perm m
  rangeStderrs_perm : ∀ m, (rangeStderrs m).Perm m

/-- The memory the executor works on: the commands and the writers, by
address.  A writer is the list of payloads written to it so far. -/
structure World where
  cmds : Nat → shell.Cmd
  writers : Nat → List String

/-- The effect of `fmt.Fprint(w, s)` and of `fmt.Fprintf(w, "%s", s)` on the
writer at address `o`: one write of `s`. -/
def World.Fprint (w : World) (o : Nat) (s : String) : World :=
  { w with writers := Function.update w.writers o (w.writers o ++ [s]) }

/-- The assignment `cmd.Process = &os.Process{Pid: pid}` on the command at
address `p`. -/
def World.setProcess (w : World) (p : Nat) (pid : Int) : World :=
  { w with cmds := Function.update w.cmds p { w.cmds p with Process := some pid } }

/-- The struct `capturingExecutor`.  `captured` and `inputs` are the lists
behind the two pointers (`none` for a nil pointer), with commands and readers
named by their addresses; `stdout` and `stderr` are `none` for a nil slice; a
map is the list of its entries; `err` names the injected error (`none` for
nil); `idx` starts at zero and is only ever incremented, so it is a natural
number (the wrap of a 64-bit counter is out of reach). -/
structure capturingExecutor where
  captured : Option (List Nat) := none
  inputs : Option (List (Option Nat)) := none
  stdout : Option (List String) := none
  stderr : Option (List String) := none
  mappedStdouts : List (Regexp × String) := []
  mappedStderrs : List (Regexp × String) := []
  pid : Int := 0
  err : Option String := none
  errIdx : Int := 0
  idx : Nat := 0

/-- An error returned by `Run`: the injected one (`c.err`, which exists before
the call), or one made inside the call by `errors.New`, which is a new value
and so equal to no injected error. -/
inductive Error where
  | injected (e : String)
  | New (msg : String)
  deriving DecidableEq, Repr

/-- How a call ends: it returns an error value (`none` for nil), or it panics
on a nil writer. -/
inductive Outcome where
  | returned (err : Option Error)
  | panicked
  deriving DecidableEq, Repr

/-- Whether the call came back through `maybeReturnError`: it returned nil or
the injected error (and neither an error made by `errors.New` nor a panic). -/
def Outcome.viaMaybeReturnError : Outcome → Bool
  | Outcome.returned none => true
  | Outcome.returned (some (Error.injected _)) => true
  | Outcome.returned (some (Error.New _)) => false
  | Outcome.panicked => false

/-- A call's outcome together with the executor and the memory it leaves. -/
structure Result where
  outcome : Outcome
  exec : capturingExecutor
  world : World

/-- The method `maybeReturnError`. -/
def maybeReturnError (c : capturingExecutor) : Option Error × capturingExecutor :=
  let c := { c with idx := c.idx + 1 }
  if c.errIdx = 0 ∨ (c.errIdx > 0 ∧ (c.idx : Int) = c.errIdx) then
    (c.err.map Error.injected, c)
  else
    (none, c)

/-- The first two statements of `Run`: when the pointer is not nil, the
command is appended to `*c.captured`, and its `Stdin` to `*c.inputs`. -/
def capturingExecutor.capture (c : capturingExecutor) (p : Nat) (stdin : Option Nat) :
    capturingExecutor :=
  { c with
    captured := match c.captured with
      | some l => some (l ++ [p])
      | none => none
    inputs := match c.inputs with
      | some l => some (l ++ [stdin])
      | none => none }

/-- The method `Run`, on the command at address `p`.  A `range` loop over a
map that returns on the first matching entry is `find?` over the entries in
the order of the visit. -/
def Run (rt : Runtime) (c : capturingExecutor) (w : World) (p : Nat) : Result :=
  let cmd := w.cmds p
  let c := c.capture p cmd.Stdin
  match (rt.rangeStdouts c.mappedStdouts).find? (fun e => e.1.MatchString (cmd.String rt.host)) with
  | some e =>
    match cmd.Stdout with
    | none => { outcome := Outcome.panicked, exec := c, world := w }
    | some o =>
      let r := maybeReturnError c
      { outcome := Outcome.returned r.1, exec := r.2, world := w.Fprint o e.2 }
  | none =>
    match (match c.stdout with
      | some outs =>
        if c.idx ≥ outs.length then none
        else match cmd.Stdout with
          | some o => some (w.Fprint o (outs.getD c.idx ""))
          | none => some w
      | none => some w) with
    | none =>
      { outcome := Outcome.returned
          (some (Error.New "mock executor did not have enough registered stdouts")),
        exec := c, world := w }
    | some w =>
      let w := if c.pid ≠ 0 then w.setProcess p c.pid else w
      match (rt.rangeStderrs c.mappedStderrs).find?
          (fun e => e.1.MatchString (cmd.String rt.host)) with
      | some e =>
        match cmd.Stderr with
        | none => { outcome := Outcome.panicked, exec := c, world := w }
        | some o =>
          let r := maybeReturnError c
          { outcome := Outcome.returned r.1, exec := r.2, world := w.Fprint o e.2 }
      | none =>
        match c.stderr with
        | some errs =>
          if c.idx ≥ errs.length then
            { outcome := Outcome.returned
                (some (Error.New "mock executor did not have enough registered stderrs")),
              exec := c, world := w }
          else
            let w := match cmd.Stderr with
              | some o => w.Fprint o (errs.getD c.idx "")
              | none => w
            let r := maybeReturnError c
            { outcome := Outcome.returned r.1, exec := r.2, world := w }
        | none =>
          let r := maybeReturnError c
          { outcome := Outcome.returned r.1, exec := r.2, world := w }

/-- What the statement `if c.pid != 0 { cmd.Process = &os.Process{Pid: c.pid} }`
of `Run` does to the memory. -/
def pidStep (c : capturingExecutor) (w : World) (p : Nat) : World :=
  if c.pid ≠ 0 then w.setProcess p c.pid else w

/-- The method `Start`. -/
def Start (rt : Runtime) (c : capturingExecutor) (w : World) (p : Nat) : Result :=
  Run rt c w p

/-- The method `RunCancellable`; the context is not looked at. -/
def RunCancellable {Ctx : Type} (rt : Runtime) (_ : Ctx) (c : capturingExecutor) (w : World)
    (p : Nat) : Result :=
  Run rt c w p

/-- An `ExecutorOption`. -/
abbrev ExecutorOption := capturingExecutor → capturingExecutor

/-- The function `NewExecutor`: the options applied in turn to the zero value. -/
def NewExecutor (opts : List ExecutorOption) : capturingExecutor :=
  opts.foldl (fun executor opt => opt executor) {}

/-- One call in a serialized sequence: what it takes from outside, and the
address of the command submitted. -/
structure Call where
  rt : Runtime
  cmd : Nat

/-- The results of a serialized sequence of `Run` calls, in call order; each
call starts from the executor and the memory the previous one left. -/
def RunSeq (c : capturingExecutor) (w : World) : List Call → List Result
  | [] => []
  | k :: ks => Run k.rt c w k.cmd :: RunSeq (Run k.rt c w k.cmd).exec (Run k.rt c w k.cmd).world ks

/-- The executor and the memory after a serialized sequence of `Run` calls. -/
def RunAll (c : capturingExecutor) (w : World) : List Call → capturingExecutor × World
  | [] => (c, w)
  | k :: ks => RunAll (Run k.rt c w k.cmd).exec (Run k.rt c w k.cmd).world ks

/-- A runtime for the examples: an empty ambient environment, the words of a
command joined by blanks, and maps visited in the order of their entries. -/
def exampleRuntime : Runtime :=
  { host := { Environ := [], Join := String.intercalate " " }
    rangeStdouts := id
    rangeStderrs := id
    rangeStdouts_perm := fun _ => List.Perm.refl _
    rangeStderrs_perm := fun _ => List.Perm.refl _ }

/-- A runtime for the examples that visits each map from its last entry to its
first; Go leaves the order of a `range` over a map open, so this is one of the
orders a call can meet. -/
def reversedRuntime : Runtime :=
  { host := { Environ := [], Join := String.intercalate " " }
    rangeStdouts := List.reverse
    rangeStderrs := List.reverse
    rangeStdouts_perm := fun m => List.reverse_perm m
    rangeStderrs_perm := fun m => List.reverse_perm m }

/-- A memory for the examples: the command at address `n` is
`command-that-does-not-exist` with its own two buffers attached, writer `2n` as
`Stdout` and writer `2n+1` as `Stderr`; nothing has been written yet. -/
def exampleWorld : World :=
  { cmds := fun n =>
      { Args := ["command-that-does-not-exist"], Stdout := some (2 * n), Stderr := some (2 * n + 1) }
    writers := fun _ => [] }

/-- A memory for the examples in which no command has a stream attached: the
command at every address is as `NewCommand("command-that-does-not-exist")`
makes it, with `Stdout` and `Stderr` nil. -/
def bareWorld : World :=
  { cmds := fun _ => { Args := ["command-that-does-not-exist"] }
    writers := fun _ => [] }

/-- A call of the examples: the command at address `n`, under `exampleRuntime`. -/
def exampleCall (n : Nat) : Call :=
  { rt := exampleRuntime, cmd := n }

end testshell

namespace brew

/-! ## `brew/info.go` -/

/-- Whether the pattern `_\d+$` of `brewRevisionRe` matches at the start of
the text given, which then runs to the end of the input: an underscore, one or
more ASCII digits, and nothing after them. -/
def matchRevisionHere : List Char → Bool
  | '_' :: d :: ds => (d :: ds).all Char.isDigit
  | _ => false

/-- The call `brewRevisionRe.ReplaceAllString(v, "")` on the text still to be
read: the text is copied up to the leftmost position where the pattern
matches, and the match, which reaches the end of the input, is replaced by
the empty string. -/
def replaceAllRevision : List Char → List Char
  | [] => []
  | c :: cs => if matchRevisionHere (c :: cs) then [] else c :: replaceAllRevision cs

/-- The function `stripBrewRevision`. -/
def stripBrewRevision (v : String) : String :=
  String.mk (replaceAllRevision v.data)

/-- The struct `Installed`. -/
structure Installed where
  Version : String
  deriving DecidableEq, Repr

/-- The struct `HomebrewFormula`. -/
structure HomebrewFormula where
  Name : String
  Installed : List Installed
  deriving DecidableEq, Repr

/-- The errors of `info.go`: one handed up from a library or from the command
run, `fmt.Errorf("empty JSON array")`, and the two wrapped parse failures. -/
inductive Error where
  | external (msg : String)
  | emptyJSONArray
  | parseInstalled (installedVersion item : String) (cause : Error)
  | parseMinimum (minimumVersion item : String) (cause : Error)
  deriving DecidableEq, Repr

/-- The libraries `info.go` calls: `json.Unmarshal` into a `[]HomebrewFormula`,
and `version.NewVersion` and `GreaterThanOrEqual` of `hashicorp/go-version`
over its versions `V`. -/
structure Lib (V : Type) where
  Unmarshal : String → Except Error (List HomebrewFormula)
  NewVersion : String → Except Error V
  GreaterThanOrEqual : V → V → Bool

/-- The part of `exec.CarafeConfig` that `info.go` uses: `RunBrew`, from the
arguments to the output and the error of the run. -/
structure CarafeConfig where
  RunBrew : List String → String × Option Error

/-- The function `infoOutput`. -/
def infoOutput (c : CarafeConfig) (item : String) : String × Option Error :=
  let args := ["info", "--json", item]
  c.RunBrew args

/-- The function `installed`. -/
def installed {V : Type} (lib : Lib V) (output : String) : Bool × Option Error :=
  match lib.Unmarshal output with
  | Except.error err => (false, some err)
  | Except.ok info =>
    match info with
    | [] => (false, some Error.emptyJSONArray)
    | first :: _ =>
      if first.Installed.length = 0 then (false, none)
      else (true, none)

/-- The function `getVersion`. -/
def getVersion {V : Type} (lib : Lib V) (output : String) : String × Option Error :=
  match lib.Unmarshal output with
  | Except.error err => ("", some err)
  | Except.ok info =>
    match info with
    | [] => ("", none)
    | first :: _ =>
      match first.Installed with
      | [] => ("", none)
      | inst :: _ => (inst.Version, none)

/-- The function `VersionMeetsOrExceedsMinimum`. -/
def VersionMeetsOrExceedsMinimum {V : Type} (lib : Lib V) (c : CarafeConfig)
    (item minimumVersion : String) : Bool × Option Error :=
  match infoOutput c item with
  | (_, some err) => (true, some err)
  | (out, none) =>
    match installed lib out with
    | (_, some err) => (true, some err)
    | (isInstalled, none) =>
      if !isInstalled then (true, none)
      else
        match getVersion lib out with
        | (_, some err) => (true, some err)
        | (installedVersion, none) =>
          if installedVersion = "" then (true, none)
          else
            match lib.NewVersion (stripBrewRevision installedVersion) with
            | Except.error err =>
              (true, some (Error.parseInstalled installedVersion item err))
            | Except.ok parsedInstalledVersion =>
              match lib.NewVersion minimumVersion with
              | Except.error err =>
                (true, some (Error.parseMinimum minimumVersion item err))
              | Except.ok parsedMinimumVersion =>
                (lib.GreaterThanOrEqual parsedInstalledVersion parsedMinimumVersion, none)

/-- A stand-in for the parser of `go-version` in the examples: a version is
one or more runs of digits separated by dots, read as numbers.  `cur` is the
number being read, `acc` the numbers read. -/
def parseSegments : List Char → Option Nat → List Nat → Option (List Nat)
  | [], some n, acc => some (acc ++ [n])
  | [], none, _ => none
  | c :: cs, cur, acc =>
    if c.isDigit then parseSegments cs (some (cur.getD 0 * 10 + (c.toNat - 48))) acc
    else if c = '.' then
      match cur with
      | some n => parseSegments cs none (acc ++ [n])
      | none => none
    else none

/-- A stand-in for `GreaterThanOrEqual` of `go-version` in the examples: the
numbers are compared from the left, a missing number counting as zero. -/
def segmentsGE : List Nat → List Nat → Bool
  | [], bs => bs.all (fun b => b == 0)
  | _ :: _, [] => true
  | a :: as, b :: bs => if a > b then true else if a < b then false else segmentsGE as bs

/-- A stand-in for `json.Unmarshal` in the examples: it knows the documents of
`TestVersionMeetsOrExceedsMinimum` and rejects every other text. -/
def exampleUnmarshal (output : String) : Except Error (List HomebrewFormula) :=
  if output = "[\x7b \"installed\": [\x7b \"version\": \"1.2.3\" \x7d] \x7d]" then
    Except.ok [{ Name := "", Installed := [{ Version := "1.2.3" }] }]
  else if output = "[\x7b \"installed\": [\x7b \"version\": \"2.52.0_1\" \x7d] \x7d]" then
    Except.ok [{ Name := "", Installed := [{ Version := "2.52.0_1" }] }]
  else if output = "[\x7b \"installed\": [] \x7d]" then
    Except.ok [{ Name := "", Installed := [] }]
  else if output = "[]" then Except.ok []
  else Except.error (Error.external "invalid JSON")

/-- The libraries of the examples. -/
def exampleLib : Lib (List Nat) :=
  { Unmarshal := exampleUnmarshal
    NewVersion := fun s =>
      match parseSegments s.data none [] with
      | some v => Except.ok v
      | none => Except.error (Error.external "Malformed version")
    GreaterThanOrEqual := segmentsGE }

/-- A configuration of the examples: the command succeeds with the output
given. -/
def outputConfig (stdout : String) : CarafeConfig :=
  { RunBrew := fun _ => (stdout, none) }

end brew

/-! # Theorems -/

namespace shell

/-! ### Order facts about `cmpLess` -/

theorem cons_lt_cons_iff (a b : Char) (as bs : List Char) :
    a :: as < b :: bs ↔ a < b ∨ (a = b ∧ as < bs) := by
  constructor
  · intro h
    cases h with
    | cons h => exact Or.inr ⟨rfl, h⟩
    | rel h => exact Or.inl h
  · rintro (h | ⟨rfl, h⟩)
    · exact List.Lex.rel h
    · exact List.Lex.cons h

theorem lessChars_iff (as bs : List Char) : lessChars as bs = true ↔ as < bs := by
  induction as generalizing bs with
  | nil =>
    cases bs with
    | nil => simp [lessChars]
    | cons b bs => simp [lessChars, List.nil_lt_cons]
  | cons a as ih =>
    cases bs with
    | nil => simp [lessChars]
    | cons b bs =>
      rw [cons_lt_cons_iff]
      have hlt : a < b ↔ a.toNat < b.toNat := Iff.rfl
      unfold lessChars
      by_cases h1 : a.toNat < b.toNat
      · simp [h1, hlt]
      · by_cases h2 : b.toNat < a.toNat
        · have hne : a ≠ b := by
            rintro rfl
            exact absurd h2 (lt_irrefl _)
          simp [h1, h2, hlt, hne]
        · have heq : a = b := by
            apply Char.ext
            exact UInt32.ext (le_antisymm (not_lt.mp h2) (not_lt.mp h1))
          simp [h1, h2, hlt, heq, ih]

theorem cmpLess_iff (a b : String) : cmpLess a b = true ↔ a < b := by
  rw [String.lt_iff_toList_lt]
  exact lessChars_iff a.data b.data

theorem cmpLess_false_iff (a b : String) : cmpLess b a = false ↔ a ≤ b := by
  rw [← not_lt, ← cmpLess_iff]
  simp

instance cmpLess_total : IsTotal String (fun a b => cmpLess b a = false) :=
  ⟨fun a b => by
    simp only [cmpLess_false_iff]
    exact le_total a b⟩

instance cmpLess_trans : IsTrans String (fun a b => cmpLess b a = false) :=
  ⟨fun a b c => by
    simp only [cmpLess_false_iff]
    exact le_trans⟩

theorem slicesSort_sorted (x : List String) : (slicesSort x).Pairwise (fun a b => a ≤ b) := by
  have h := List.sorted_insertionSort (fun a b : String => cmpLess b a = false) x
  exact List.Pairwise.imp (fun {a b} hab => (cmpLess_false_iff a b).mp hab) h

theorem mem_slicesSort (x : List String) (a : String) : a ∈ slicesSort x ↔ a ∈ x :=
  (List.perm_insertionSort _ x).mem_iff

/-! ### `slices.BinarySearch` on an ascending slice -/

theorem sorted_getD_le (x : List String) (hs : x.Pairwise (fun a b => a ≤ b))
    (k m : Nat) (hkm : k ≤ m) (hm : m < x.length) : x.getD k "" ≤ x.getD m "" := by
  have hk : k < x.length := lt_of_le_of_lt hkm hm
  rw [List.getD_eq_getElem x "" hk, List.getD_eq_getElem x "" hm]
  rcases Nat.eq_or_lt_of_le hkm with rfl | hlt
  · exact le_rfl
  · exact List.pairwise_iff_getElem.mp hs k m hk hm hlt

/-- The loop keeps everything left of `i` below the target and everything
from `j` on at or above it, and ends with `i = j` when given `j - i` steps. -/
theorem binarySearchLoop_spec (x : List String) (t : String)
    (hs : x.Pairwise (fun a b => a ≤ b)) :
    ∀ (fuel i j : Nat), i ≤ j → j ≤ x.length → j - i ≤ fuel →
      (∀ k, k < i → x.getD k "" < t) →
      (∀ k, j ≤ k → k < x.length → t ≤ x.getD k "") →
      (binarySearchLoop x t fuel i j ≤ x.length ∧
        (∀ k, k < binarySearchLoop x t fuel i j → x.getD k "" < t) ∧
        (∀ k, binarySearchLoop x t fuel i j ≤ k → k < x.length → t ≤ x.getD k ""))
  | 0, i, j, hij, hjn, hf, hlo, hhi => by
    have hji : j = i := by omega
    subst hji
    simp only [binarySearchLoop]
    exact ⟨hjn, hlo, hhi⟩
  | fuel + 1, i, j, hij, hjn, hf, hlo, hhi => by
    simp only [binarySearchLoop]
    by_cases hlt : i < j
    · simp only [hlt, if_true]
      have hh1 : i ≤ (i + j) / 2 := by omega
      have hh2 : (i + j) / 2 < j := by omega
      by_cases hc : cmpLess (x.getD ((i + j) / 2) "") t = true
      · simp only [hc, if_true]
        apply binarySearchLoop_spec x t hs fuel ((i + j) / 2 + 1) j (by omega) hjn (by omega)
        · intro k hk
          have hkh : k ≤ (i + j) / 2 := by omega
          exact lt_of_le_of_lt (sorted_getD_le x hs k _ hkh (by omega)) ((cmpLess_iff _ _).mp hc)
        · exact hhi
      · simp only [hc]
        apply binarySearchLoop_spec x t hs fuel i ((i + j) / 2) hh1 (by omega) (by omega) hlo
        intro k hk hkn
        have hge : t ≤ x.getD ((i + j) / 2) "" := by
          rw [← not_lt, ← cmpLess_iff]
          exact hc
        exact le_trans hge (sorted_getD_le x hs _ k hk hkn)
    · have hji : j = i := by omega
      subst hji
      simp only [hlt, if_false]
      exact ⟨hjn, hlo, hhi⟩

/-- On an ascending slice `slices.BinarySearch` reports "found" exactly for the
members of the slice. -/
theorem BinarySearch_found_iff (x : List String) (t : String)
    (hs : x.Pairwise (fun a b => a ≤ b)) : (BinarySearch x t).2 = true ↔ t ∈ x := by
  obtain ⟨hn, hlo, hhi⟩ := binarySearchLoop_spec x t hs x.length 0 x.length
    (Nat.zero_le _) le_rfl (by omega) (fun k hk => absurd hk (Nat.not_lt_zero k))
    (fun k hk hkn => absurd hkn (by omega))
  simp only [BinarySearch, Bool.and_eq_true, decide_eq_true_eq, beq_iff_eq]
  constructor
  · rintro ⟨hi, he⟩
    rw [← he, List.getD_eq_getElem x "" hi]
    exact List.getElem_mem _
  · intro hmem
    obtain ⟨k, hk, hkt⟩ := List.getElem_of_mem hmem
    have hkd : x.getD k "" = t := by rw [List.getD_eq_getElem x "" hk]; exact hkt
    have hik : binarySearchLoop x t x.length 0 x.length ≤ k := by
      by_contra hcon
      have := hlo k (by omega)
      rw [hkd] at this
      exact absurd this (lt_irrefl _)
    have hi : binarySearchLoop x t x.length 0 x.length < x.length := by omega
    refine ⟨hi, le_antisymm ?_ (hhi _ le_rfl hi)⟩
    have := sorted_getD_le x hs _ k hik hk
    rwa [hkd] at this

/-! ### `newEnvVars` -/

theorem foldl_newEnvs (found : String → Bool) (envs acc : List String) :
    envs.foldl (fun newEnvs a => if found a then newEnvs else newEnvs ++ [a]) acc
      = acc ++ envs.filter (fun a => !found a) := by
  induction envs generalizing acc with
  | nil => simp
  | cons e es ih =>
    simp only [List.foldl_cons, ih, List.filter_cons]
    by_cases h : found e = true
    · simp [h]
    · simp [h]

/-- The function `newEnvVars` keeps, in order, the entries that the ambient
environment does not contain. -/
theorem newEnvVars_eq_filter (environ envs : List String) :
    newEnvVars environ envs = envs.filter (fun a => decide (a ∉ environ)) := by
  unfold newEnvVars
  by_cases h0 : envs.length = 0
  · have : envs = [] := List.length_eq_zero.mp h0
    subst this
    simp
  · simp only [h0, if_false]
    rw [foldl_newEnvs (fun a => (BinarySearch (slicesSort environ) a).2) envs [], List.nil_append]
    apply List.filter_congr
    intro a _
    have := BinarySearch_found_iff (slicesSort environ) a (slicesSort_sorted environ)
    rw [mem_slicesSort] at this
    by_cases hm : a ∈ environ
    · simp [hm, this.mpr hm]
    · have hf : (BinarySearch (slicesSort environ) a).2 = false := by
        cases hb : (BinarySearch (slicesSort environ) a).2
        · rfl
        · exact absurd (this.mp hb) hm
      simp [hm, hf]

/-- C7: for every override list `E`, argument list `Args` and ambient
environment `A`, `Cmd.String()` is the shell-quoted join of `F ++ Args`, where
`F` keeps, in their order, exactly the entries of `E` that are equal to no
entry of `A`; an entry of `E` present in `A` is not among the rendered
environment tokens. -/
theorem cmdString_renders_new_env (h : Host) (c : Cmd) :
    c.String h = h.Join (c.Env.filter (fun e => decide (e ∉ h.Environ)) ++ c.Args) ∧
    (newEnvVars h.Environ c.Env).Sublist c.Env ∧
    (∀ e, e ∈ newEnvVars h.Environ c.Env ↔ e ∈ c.Env ∧ e ∉ h.Environ) := by
  refine ⟨?_, ?_, ?_⟩
  · simp only [Cmd.String, List.nil_append, newEnvVars_eq_filter]
  · rw [newEnvVars_eq_filter]
    exact List.filter_sublist _
  · intro e
    rw [newEnvVars_eq_filter]
    simp [List.mem_filter]

/-- C19: formatting a command with verb `v` gives a backtick, `c.String()` and
a backtick, followed by ` in ` and `c.Dir` exactly when `c.Dir` is not empty
(nothing follows the closing backtick when it is empty); verb `s` gives
`c.String()` and nothing else. -/
theorem Format_spec (h : Host) (c : Cmd) :
    c.Format h 's' = c.String h ∧
    (c.Dir ≠ "" → c.Format h 'v' = "`" ++ c.String h ++ "`" ++ (" in " ++ c.Dir)) ∧
    (c.Dir = "" → c.Format h 'v' = "`" ++ c.String h ++ "`") := by
  refine ⟨?_, ?_, ?_⟩
  · simp [Cmd.Format]
  · intro hd
    have hv : ¬ ('v' = 's') := by decide
    simp [Cmd.Format, hv, hd]
  · intro hd
    have hv : ¬ ('v' = 's') := by decide
    simp [Cmd.Format, hv, hd]

theorem Format_spec_witness :
    ({ Args := ["brew", "info"], Dir := "/opt/homebrew" } : Cmd).Format
        { Environ := [], Join := String.intercalate " " } 'v' = "`brew info` in /opt/homebrew" ∧
    ({ Args := ["brew", "info"] } : Cmd).Format
        { Environ := [], Join := String.intercalate " " } 'v' = "`brew info`" ∧
    ({ Args := ["brew", "info"], Dir := "/opt/homebrew" } : Cmd).Format
        { Environ := [], Join := String.intercalate " " } 's' = "brew info" :=
  ⟨((Format_spec { Environ := [], Join := String.intercalate " " }
      { Args := ["brew", "info"], Dir := "/opt/homebrew" }).2.1 (by decide)).trans (by decide),
    ((Format_spec { Environ := [], Join := String.intercalate " " }
      { Args := ["brew", "info"] }).2.2 rfl).trans (by decide),
    ((Format_spec { Environ := [], Join := String.intercalate " " }
      { Args := ["brew", "info"], Dir := "/opt/homebrew" }).1).trans (by decide)⟩

/-! ### The line-prefixing writer -/

theorem emitLine_ok {σ : Type} (s : Sink σ) (hs : s.NeverFails) (pfx : List Char) (st : σ)
    (line : List Char) : ∃ st2, emitLine s pfx st line = Except.ok st2 := by
  unfold emitLine
  split
  · exact ⟨st, rfl⟩
  · exact hs _ _

theorem scanLines_err {σ : Type} (s : Sink σ) (hs : s.NeverFails) (pfx : List Char) :
    ∀ (n : Nat) (l : List Char), l.length ≤ n → ∀ (st : σ) (cur : List Char),
      (scanLines s pfx st cur l).err = none := by
  intro n
  induction n with
  | zero =>
    intro l hl st cur
    have : l = [] := List.length_eq_zero.mp (Nat.le_zero.mp hl)
    subst this
    obtain ⟨st2, h2⟩ := emitLine_ok s hs pfx st cur
    simp [scanLines, h2]
  | succ n ih =>
    intro l hl st cur
    unfold scanLines
    split
    · obtain ⟨st2, h2⟩ := emitLine_ok s hs pfx st cur
      simp only [h2]
    · rename_i rest
      obtain ⟨st2, h2⟩ := emitLine_ok s hs pfx st cur
      simp only [h2]
      apply ih
      simp only [List.length_cons] at hl
      omega
    · rename_i c rest hne
      split
      · obtain ⟨st2, h2⟩ := emitLine_ok s hs pfx st cur
        simp only [h2]
        apply ih
        simp only [List.length_cons] at hl
        omega
      · apply ih
        simp only [List.length_cons] at hl
        omega

theorem bufferSink_neverFails : bufferSink.NeverFails :=
  fun st d => ⟨st ++ d, rfl⟩

/-- C1: for every prefix, every prior sequence of writes and every byte slice
`b` (empty and terminator-only slices included), `Write(b)` on a sink that does
not fail returns `(len(b), nil)`. -/
theorem Write_returns_len {σ : Type} (s : Sink σ) (hs : s.NeverFails) (w0 : σ) (pfx : String)
    (prior : List (List Char)) (b : List Char) :
    (((NewPrependingWriter w0 pfx).WriteAll s prior).Write s b).1 = (b.length, none) := by
  unfold prependingWriter.Write
  simp only [Prod.mk.injEq, true_and]
  exact scanLines_err s hs _ _ _ le_rfl _ _

theorem Write_returns_len_witness :
    bufferSink.NeverFails ∧
      (((NewPrependingWriter [] "[TEST] ").WriteAll bufferSink ["first line\n".data, "x".data]).Write
        bufferSink "\n\n\n".data).1 = (3, none) :=
  ⟨bufferSink_neverFails,
    Write_returns_len bufferSink bufferSink_neverFails [] "[TEST] "
      ["first line\n".data, "x".data] "\n\n\n".data⟩

/-! ### The line-prefixing writer against its tests -/

/-- The cases of `TestPrependingWriter_Write`: the model gives the count and
the output each of them expects (the third component is the buffer, which the
tests do not look at). -/
theorem Write_test_cases :
    ((NewPrependingWriter [] "[TEST] ").Write bufferSink "hello world\n".data)
      = ((12, none), NewPrependingWriter "[TEST] hello world\n".data "[TEST] ") ∧
    ((NewPrependingWriter [] "[INFO] ").Write bufferSink "line1\nline2\nline3\n".data)
      = ((18, none),
          NewPrependingWriter "[INFO] line1\n[INFO] line2\n[INFO] line3\n".data "[INFO] ") ∧
    ((NewPrependingWriter [] "> ").Write bufferSink "single line".data)
      = ((11, none), { w := "> single line\n".data, pfx := "> ".data, buf := "single line".data }) ∧
    ((NewPrependingWriter [] "").Write bufferSink "hello\n".data)
      = ((6, none), NewPrependingWriter "hello\n".data "") ∧
    ((NewPrependingWriter [] "[TEST] ").Write bufferSink "".data)
      = ((0, none), NewPrependingWriter [] "[TEST] ") ∧
    ((NewPrependingWriter [] "[TEST] ").Write bufferSink "\n\n\n".data)
      = ((3, none), NewPrependingWriter [] "[TEST] ") ∧
    ((NewPrependingWriter [] "[TEST] ").Write bufferSink "  hello world  \n".data)
      = ((16, none), NewPrependingWriter "[TEST] hello world\n".data "[TEST] ") ∧
    ((NewPrependingWriter [] "[TEST] ").Write bufferSink "line1\rline2\r".data)
      = ((12, none), NewPrependingWriter "[TEST] line1\n[TEST] line2\n".data "[TEST] ") ∧
    ((NewPrependingWriter [] "[LOG] ").Write bufferSink "start\r\nmiddle\nend\r".data)
      = ((18, none), NewPrependingWriter "[LOG] start\n[LOG] middle\n[LOG] end\n".data "[LOG] ") ∧
    ((NewPrependingWriter [] "[TEST] ").Write bufferSink "line1\n\nline2\n".data)
      = ((13, none), NewPrependingWriter "[TEST] line1\n[TEST] line2\n".data "[TEST] ") :=
  ⟨by decide, by decide, by decide, by decide, by decide, by decide, by decide, by decide,
    by decide, by decide⟩

/-- The cases of `TestPrependingWriter_WriteWithAnsiCodes` and
`TestPrependingWriter_MultipleWrites`. -/
theorem Write_ansi_and_multiple_test_cases :
    ((NewPrependingWriter [] "[TEST] ").Write bufferSink
        (ESC :: "[31mred text".data ++ ESC :: "[0m\n".data)).2.w
      = "[TEST] red text\n".data ∧
    ((NewPrependingWriter [] "[LOG] ").Write bufferSink
        (ESC :: "[1mbold".data ++ ESC :: "[0m\n".data)).2.w
      = "[LOG] bold\n".data ∧
    ((NewPrependingWriter [] "> ").Write bufferSink
        (ESC :: "[32mgreen".data ++ ESC :: "[0m\n".data ++ ESC :: "[33myellow".data
          ++ ESC :: "[0m\n".data)).2.w
      = "> green\n> yellow\n".data ∧
    ((NewPrependingWriter [] "[TEST] ").WriteAll bufferSink
        ["first line\n".data, "second line\n".data, "third line\n".data]).w
      = "[TEST] first line\n[TEST] second line\n[TEST] third line\n".data :=
  ⟨by decide, by decide, by decide, by decide⟩

/-- The cases of `TestStripLine`. -/
theorem stripLine_test_cases :
    stripLine "hello world".data = "hello world".data ∧
    stripLine "   hello".data = "hello".data ∧
    stripLine "world   ".data = "world".data ∧
    stripLine "  hello world  ".data = "hello world".data ∧
    stripLine [] = [] ∧
    stripLine "   ".data = [] ∧
    stripLine (ESC :: "[31mred text".data ++ ESC :: "[0m".data) = "red text".data ∧
    stripLine (ESC :: "[1mbold text".data ++ ESC :: "[0m".data) = "bold text".data ∧
    stripLine ("  ".data ++ ESC :: "[32mgreen".data ++ ESC :: "[0m  ".data) = "green".data ∧
    stripLine "\thello\t".data = "hello".data :=
  ⟨by decide, by decide, by decide, by decide, by decide, by decide, by decide, by decide,
    by decide, by decide⟩

/-! ### The line-prefixing writer on a buffer -/

theorem lineOut_nil (pfx : List Char) : lineOut pfx [] = [] := by
  have h : stripLine [] = [] := by decide
  simp [lineOut, h]

theorem emitLine_bufferSink (pfx st line : List Char) :
    emitLine bufferSink pfx st line = Except.ok (st ++ lineOut pfx line) := by
  unfold emitLine lineOut
  split <;> simp [bufferSink]

theorem scanLines_nil (pfx st cur : List Char) :
    scanLines bufferSink pfx st cur []
      = { w := st ++ lineOut pfx cur, buf := cur, err := none } := by
  simp [scanLines, emitLine_bufferSink]

/-- Characters that are not terminators are added to the line being read. -/
theorem scanLines_append_of_no_terminator {σ : Type} (s : Sink σ) (pfx : List Char)
    (l : List Char) (hl : ∀ c ∈ l, c ≠ '\n' ∧ c ≠ '\r') (st : σ) (cur rest : List Char) :
    scanLines s pfx st cur (l ++ rest) = scanLines s pfx st (cur ++ l) rest := by
  induction l generalizing cur with
  | nil => simp
  | cons c cs ih =>
    have hc := hl c (List.mem_cons_self c cs)
    have hcs : ∀ d ∈ cs, d ≠ '\n' ∧ d ≠ '\r' := fun d hd => hl d (List.mem_cons_of_mem c hd)
    rw [List.cons_append]
    conv => lhs; unfold scanLines
    split
    · rename_i heq
      exact absurd heq (List.cons_ne_nil _ _)
    · rename_i r heq
      exact absurd (List.cons.inj heq).1 hc.2
    · rename_i c2 r hne heq
      obtain ⟨h1, h2⟩ := List.cons.inj heq
      subst h1
      subst h2
      simp only [hc.1, hc.2, or_self, if_false]
      rw [ih hcs]
      simp

theorem scanLines_newline (pfx st cur rest : List Char) :
    scanLines bufferSink pfx st cur ('\n' :: rest)
      = scanLines bufferSink pfx (st ++ lineOut pfx cur) [] rest := by
  conv => lhs; unfold scanLines
  simp [emitLine_bufferSink]

theorem scanLines_crlf (pfx st cur rest : List Char) :
    scanLines bufferSink pfx st cur ('\r' :: '\n' :: rest)
      = scanLines bufferSink pfx (st ++ lineOut pfx cur) [] rest := by
  conv => lhs; unfold scanLines
  simp [emitLine_bufferSink]

theorem scanLines_cr (pfx st cur rest : List Char) :
    scanLines bufferSink pfx st cur ('\r' :: rest)
      = scanLines bufferSink pfx (st ++ lineOut pfx cur) [] rest := by
  cases rest with
  | nil =>
    conv => lhs; unfold scanLines
    simp [emitLine_bufferSink]
  | cons d ds =>
    by_cases hd : d = '\n'
    · subst hd
      rw [scanLines_crlf, scanLines_newline, lineOut_nil, List.append_nil]
    · conv => lhs; unfold scanLines
      simp [emitLine_bufferSink, hd]

/-- What a scan adds to a buffer does not depend on what the buffer holds. -/
theorem scanLines_sink (pfx : List Char) :
    ∀ (n : Nat) (l : List Char), l.length ≤ n → ∀ (st cur : List Char),
      (scanLines bufferSink pfx st cur l).w = st ++ (scanLines bufferSink pfx [] cur l).w := by
  intro n
  induction n with
  | zero =>
    intro l hl st cur
    have : l = [] := List.length_eq_zero.mp (Nat.le_zero.mp hl)
    subst this
    simp [scanLines_nil]
  | succ n ih =>
    intro l hl st cur
    cases l with
    | nil => simp [scanLines_nil]
    | cons c rest =>
      have hr : rest.length ≤ n := by simp only [List.length_cons] at hl; omega
      by_cases hn : c = '\n'
      · subst hn
        rw [scanLines_newline, scanLines_newline, ih rest hr, ih rest hr ([] ++ lineOut pfx cur)]
        simp
      · by_cases hc : c = '\r'
        · subst hc
          rw [scanLines_cr, scanLines_cr, ih rest hr, ih rest hr ([] ++ lineOut pfx cur)]
          simp
        · have h1 := scanLines_append_of_no_terminator bufferSink pfx [c]
            (fun d hd => by rw [List.mem_singleton.mp hd]; exact ⟨hn, hc⟩)
          simp only [List.singleton_append] at h1
          rw [h1, h1]
          exact ih rest hr st (cur ++ [c])

/-- The output of a scan that starts a line on an input of terminated lines. -/
theorem scanLines_linesInput (pfx : List Char) (lines : List (List Char × List Char))
    (hl : ∀ l ∈ lines, (∀ c ∈ l.1, c ≠ '\n' ∧ c ≠ '\r') ∧
      (l.2 = ['\n'] ∨ l.2 = ['\r'] ∨ l.2 = ['\r', '\n'])) (st : List Char) :
    scanLines bufferSink pfx st [] (linesInput lines)
      = { w := st ++ linesOutput pfx lines, buf := [], err := none } := by
  induction lines generalizing st with
  | nil => simp [linesInput, linesOutput, scanLines_nil, lineOut_nil]
  | cons l ls ih =>
    obtain ⟨h1, h2⟩ := hl l (List.mem_cons_self l ls)
    have hls : ∀ m ∈ ls, (∀ c ∈ m.1, c ≠ '\n' ∧ c ≠ '\r') ∧
        (m.2 = ['\n'] ∨ m.2 = ['\r'] ∨ m.2 = ['\r', '\n']) :=
      fun m hm => hl m (List.mem_cons_of_mem l hm)
    simp only [linesInput, linesOutput, List.append_assoc]
    rw [scanLines_append_of_no_terminator bufferSink pfx l.1 h1, List.nil_append]
    rcases h2 with h | h | h <;> rw [h]
    · rw [List.singleton_append, scanLines_newline, ih hls, List.append_assoc]
    · rw [List.singleton_append, scanLines_cr, ih hls, List.append_assoc]
    · rw [List.cons_append, List.singleton_append, scanLines_crlf, ih hls, List.append_assoc]

/-- C13, amended: for byte slices `x` and `y` where `x` contains no line
terminator and the first terminator of `y` ends the line begun in `x`
(`y = y1 ++ t ++ y2` with `y1` free of terminators and `t` one of `\n`, `\r`,
`\r\n`): `Write(x)` on a fresh writer emits the line `x` as it stands, at once
(stripped and prefixed; nothing when it is empty after stripping), and keeps
the bytes of `x` buffered; the subsequent `Write(y)` emits the line `x ++ y1`
exactly once (stripped, prefixed), with none of the bytes of `x` dropped, and
after it what the rest of `y` gives. -/
theorem unterminated_line_emitted_and_kept (pfx : String) (w0 x y1 t y2 : List Char)
    (hx : ∀ c ∈ x, c ≠ '\n' ∧ c ≠ '\r') (hy1 : ∀ c ∈ y1, c ≠ '\n' ∧ c ≠ '\r')
    (ht : t = ['\n'] ∨ t = ['\r'] ∨ t = ['\r', '\n']) :
    ((NewPrependingWriter w0 pfx).Write bufferSink x).2.w = w0 ++ lineOut pfx.data x ∧
    ((NewPrependingWriter w0 pfx).Write bufferSink x).2.buf = x ∧
    ((((NewPrependingWriter w0 pfx).Write bufferSink x).2).Write bufferSink
        (y1 ++ t ++ y2)).2.w
      = w0 ++ lineOut pfx.data x ++ lineOut pfx.data (x ++ y1)
          ++ ((NewPrependingWriter [] pfx).Write bufferSink y2).2.w := by
  have h1 : ((NewPrependingWriter w0 pfx).Write bufferSink x).2
      = { w := w0 ++ lineOut pfx.data x, pfx := pfx.data, buf := x } := by
    have h := scanLines_append_of_no_terminator bufferSink pfx.data x hx w0 [] []
    simp only [List.append_nil, List.nil_append] at h
    simp [prependingWriter.Write, NewPrependingWriter, h, scanLines_nil]
  refine ⟨by rw [h1], by rw [h1], ?_⟩
  rw [h1]
  have hxy : ∀ c ∈ x ++ y1, c ≠ '\n' ∧ c ≠ '\r' := by
    intro c hc
    rcases List.mem_append.mp hc with h | h
    · exact hx c h
    · exact hy1 c h
  have hscan : ∀ st : List Char,
      scanLines bufferSink pfx.data st [] (x ++ (y1 ++ t ++ y2))
        = scanLines bufferSink pfx.data (st ++ lineOut pfx.data (x ++ y1)) [] y2 := by
    intro st
    have h := scanLines_append_of_no_terminator bufferSink pfx.data (x ++ y1) hxy st []
      (t ++ y2)
    simp only [List.nil_append, List.append_assoc] at h ⊢
    rw [h]
    rcases ht with h | h | h <;> rw [h]
    · rw [List.singleton_append, scanLines_newline]
    · rw [List.singleton_append, scanLines_cr]
    · rw [List.cons_append, List.singleton_append, scanLines_crlf]
  simp only [prependingWriter.Write, NewPrependingWriter, List.nil_append, hscan]
  exact scanLines_sink pfx.data _ y2 le_rfl _ _

theorem unterminated_line_emitted_and_kept_witness :
    ((NewPrependingWriter [] "[TEST] ").Write bufferSink "first ".data).2.w
      = "[TEST] first\n".data ∧
    ((NewPrependingWriter [] "[TEST] ").Write bufferSink "first ".data).2.buf = "first ".data ∧
    ((((NewPrependingWriter [] "[TEST] ").Write bufferSink "first ".data).2).Write bufferSink
        "line\nnext\n".data).2.w = "[TEST] first\n[TEST] first line\n[TEST] next\n".data := by
  have h := unterminated_line_emitted_and_kept "[TEST] " [] "first ".data "line".data
    "\n".data "next\n".data (by decide) (by decide) (by decide)
  exact ⟨h.1.trans (by decide), h.2.1, h.2.2.trans (by decide)⟩

/-- C13 fails as stated: `Write` of `single line`, which has no terminator, on
a fresh writer with prefix `> ` sends `> single line\n` to the sink in that
call, as the case `line without trailing newline` of `prepender_test.go`
expects; the sink is not left empty. -/
theorem unterminated_write_emits_counterexample :
    ((NewPrependingWriter [] "> ").Write bufferSink "single line".data).1 = (11, none) ∧
    ((NewPrependingWriter [] "> ").Write bufferSink "single line".data).2.w
      = "> single line\n".data ∧
    ((NewPrependingWriter [] "> ").Write bufferSink "single line".data).2.w ≠ [] :=
  ⟨by decide, by decide, by decide⟩

/-- C14: for every prefix and every input made of terminated lines `l_1 .. l_n`
(each without a terminator inside, each ended by `\n`, `\r` or `\r\n`), the
bytes a fresh writer sends to its sink are the concatenation, in order, of
`prefix ++ stripLine(l_i) ++ "\n"` over the lines that are not empty after
stripping; the others add nothing, so an input of terminators only gives an
empty output. -/
theorem terminated_lines_output (pfx : String) (lines : List (List Char × List Char))
    (hl : ∀ l ∈ lines, (∀ c ∈ l.1, c ≠ '\n' ∧ c ≠ '\r') ∧
      (l.2 = ['\n'] ∨ l.2 = ['\r'] ∨ l.2 = ['\r', '\n'])) :
    ((NewPrependingWriter [] pfx).Write bufferSink (linesInput lines)).2.w
      = linesOutput pfx.data lines ∧
    ((∀ l ∈ lines, l.1 = []) →
      ((NewPrependingWriter [] pfx).Write bufferSink (linesInput lines)).2.w = []) := by
  have h : ((NewPrependingWriter [] pfx).Write bufferSink (linesInput lines)).2.w
      = linesOutput pfx.data lines := by
    simp [prependingWriter.Write, NewPrependingWriter, scanLines_linesInput pfx.data lines hl]
  refine ⟨h, fun hempty => ?_⟩
  rw [h]
  clear h hl
  induction lines with
  | nil => rfl
  | cons l ls ih =>
    have hl1 : l.1 = [] := hempty l (List.mem_cons_self l ls)
    simp only [linesOutput, hl1, lineOut_nil, List.nil_append]
    exact ih (fun m hm => hempty m (List.mem_cons_of_mem l hm))

theorem terminated_lines_output_witness :
    ((NewPrependingWriter [] "[LOG] ").Write bufferSink "start\r\nmiddle\n \nend\r".data).2.w
      = "[LOG] start\n[LOG] middle\n[LOG] end\n".data ∧
    ((NewPrependingWriter [] "[TEST] ").Write bufferSink "\n\r\n\r".data).2.w = [] :=
  ⟨(terminated_lines_output "[LOG] "
      [("start".data, "\r\n".data), ("middle".data, "\n".data), (" ".data, "\n".data),
        ("end".data, "\r".data)] (by decide)).1.trans (by decide),
    (terminated_lines_output "[TEST] " [([], "\n".data), ([], "\r\n".data), ([], "\r".data)]
      (by decide)).2 (by decide)⟩

/-- C15: for every prefix and every line text `s` without a terminator that is
not empty after stripping, writing `s ++ "\r\n"`, `s ++ "\r"` or `s ++ "\n"`
to a fresh writer gives the same sink output each time, the single line
`prefix ++ stripLine(s) ++ "\n"`; `\r\n` does not give two lines. -/
theorem terminators_agree (pfx : String) (s : List Char) (hs : ∀ c ∈ s, c ≠ '\n' ∧ c ≠ '\r')
    (hne : stripLine s ≠ []) :
    ((NewPrependingWriter [] pfx).Write bufferSink (s ++ ['\r', '\n'])).2.w
      = pfx.data ++ stripLine s ++ ['\n'] ∧
    ((NewPrependingWriter [] pfx).Write bufferSink (s ++ ['\r'])).2.w
      = pfx.data ++ stripLine s ++ ['\n'] ∧
    ((NewPrependingWriter [] pfx).Write bufferSink (s ++ ['\n'])).2.w
      = pfx.data ++ stripLine s ++ ['\n'] := by
  have hout : lineOut pfx.data s = pfx.data ++ stripLine s ++ ['\n'] := by
    simp [lineOut, hne]
  refine ⟨?_, ?_, ?_⟩
  · simp [prependingWriter.Write, NewPrependingWriter,
      scanLines_append_of_no_terminator bufferSink pfx.data s hs, scanLines_crlf, scanLines_nil,
      lineOut_nil, hout]
  · simp [prependingWriter.Write, NewPrependingWriter,
      scanLines_append_of_no_terminator bufferSink pfx.data s hs, scanLines_cr, scanLines_nil,
      lineOut_nil, hout]
  · simp [prependingWriter.Write, NewPrependingWriter,
      scanLines_append_of_no_terminator bufferSink pfx.data s hs, scanLines_newline,
      scanLines_nil, lineOut_nil, hout]

theorem terminators_agree_witness :
    ((NewPrependingWriter [] "[TEST] ").Write bufferSink "a\r\n".data).2.w = "[TEST] a\n".data ∧
    ((NewPrependingWriter [] "[TEST] ").Write bufferSink "a\r".data).2.w = "[TEST] a\n".data ∧
    ((NewPrependingWriter [] "[TEST] ").Write bufferSink "a\n".data).2.w = "[TEST] a\n".data :=
  terminators_agree "[TEST] " "a".data (by decide) (by decide)

end shell

namespace testshell

/-! ### The test executor: one call -/

@[simp] theorem capture_idx (c : capturingExecutor) (p : Nat) (i : Option Nat) :
    (c.capture p i).idx = c.idx := rfl

@[simp] theorem maybeReturnError_idx (c : capturingExecutor) :
    (maybeReturnError c).2.idx = c.idx + 1 := by
  unfold maybeReturnError
  simp only []
  split <;> rfl

@[simp] theorem maybeReturnError_via (c : capturingExecutor) :
    (Outcome.returned (maybeReturnError c).1).viaMaybeReturnError = true := by
  unfold maybeReturnError
  simp only []
  split
  · cases c.err <;> rfl
  · rfl

@[simp] theorem via_panicked : Outcome.panicked.viaMaybeReturnError = false := rfl

@[simp] theorem via_New (m : String) :
    (Outcome.returned (some (Error.New m))).viaMaybeReturnError = false := rfl

theorem Run_idx (rt : Runtime) (c : capturingExecutor) (w : World) (p : Nat) :
    (Run rt c w p).exec.idx
      = c.idx + (if (Run rt c w p).outcome.viaMaybeReturnError then 1 else 0) := by
  unfold Run
  simp only []
  repeat' split
  all_goals simp_all

@[simp] theorem capture_config (c : capturingExecutor) (p : Nat) (i : Option Nat) :
    (c.capture p i).stdout = c.stdout ∧ (c.capture p i).stderr = c.stderr ∧
    (c.capture p i).mappedStdouts = c.mappedStdouts ∧
    (c.capture p i).mappedStderrs = c.mappedStderrs ∧
    (c.capture p i).pid = c.pid ∧ (c.capture p i).err = c.err ∧
    (c.capture p i).errIdx = c.errIdx :=
  ⟨rfl, rfl, rfl, rfl, rfl, rfl, rfl⟩

theorem maybeReturnError_config (c : capturingExecutor) :
    (maybeReturnError c).2 = { c with idx := c.idx + 1 } := by
  unfold maybeReturnError
  simp only []
  split <;> rfl

theorem maybeReturnError_fst (c : capturingExecutor) :
    (maybeReturnError c).1
      = if c.errIdx = 0 ∨ (c.errIdx > 0 ∧ (c.idx : Int) + 1 = c.errIdx) then
          c.err.map Error.injected else none := by
  unfold maybeReturnError
  simp only [Nat.cast_add, Nat.cast_one]
  split <;> rfl

theorem rangeStdouts_nil (rt : Runtime) : rt.rangeStdouts [] = [] :=
  List.Perm.eq_nil (rt.rangeStdouts_perm [])

theorem rangeStderrs_nil (rt : Runtime) : rt.rangeStderrs [] = [] :=
  List.Perm.eq_nil (rt.rangeStderrs_perm [])

/-- The configuration of the executor is not changed by a call. -/
theorem Run_config (rt : Runtime) (c : capturingExecutor) (w : World) (p : Nat) :
    (Run rt c w p).exec.stdout = c.stdout ∧ (Run rt c w p).exec.stderr = c.stderr ∧
    (Run rt c w p).exec.mappedStdouts = c.mappedStdouts ∧
    (Run rt c w p).exec.mappedStderrs = c.mappedStderrs ∧
    (Run rt c w p).exec.pid = c.pid ∧ (Run rt c w p).exec.err = c.err ∧
    (Run rt c w p).exec.errIdx = c.errIdx := by
  unfold Run
  simp only []
  repeat' split
  all_goals simp [maybeReturnError_config, capturingExecutor.capture]

theorem find_rangeStdouts_none (rt : Runtime) (m : List (Regexp × String))
    (f : Regexp × String → Bool) (h : ∀ e ∈ m, f e = false) :
    (rt.rangeStdouts m).find? f = none := by
  rw [List.find?_eq_none]
  intro e he
  have := h e ((rt.rangeStdouts_perm m).mem_iff.mp he)
  simp [this]

theorem find_rangeStderrs_none (rt : Runtime) (m : List (Regexp × String))
    (f : Regexp × String → Bool) (h : ∀ e ∈ m, f e = false) :
    (rt.rangeStderrs m).find? f = none := by
  rw [List.find?_eq_none]
  intro e he
  have := h e ((rt.rangeStderrs_perm m).mem_iff.mp he)
  simp [this]

theorem Run_plain (rt : Runtime) (c : capturingExecutor) (w : World) (p : Nat)
    (hmo : c.mappedStdouts = []) (hme : c.mappedStderrs = [])
    (hso : c.stdout = none) (hse : c.stderr = none) :
    Run rt c w p =
      { outcome := Outcome.returned (maybeReturnError (c.capture p (w.cmds p).Stdin)).1,
        exec := (maybeReturnError (c.capture p (w.cmds p).Stdin)).2,
        world := pidStep c w p } := by
  unfold Run pidStep
  simp [hmo, hme, hso, hse, rangeStdouts_nil, rangeStderrs_nil]

theorem Run_stdout_exhausted (rt : Runtime) (c : capturingExecutor) (w : World) (p : Nat)
    (ps : List String)
    (hmo : ∀ e ∈ c.mappedStdouts, e.1.MatchString ((w.cmds p).String rt.host) = false)
    (hso : c.stdout = some ps) (hi : ps.length ≤ c.idx) :
    Run rt c w p =
      { outcome := Outcome.returned
          (some (Error.New "mock executor did not have enough registered stdouts")),
        exec := c.capture p (w.cmds p).Stdin,
        world := w } := by
  unfold Run
  simp [hso, hi, find_rangeStdouts_none rt _ _ hmo]

theorem Run_positional_stdout (rt : Runtime) (c : capturingExecutor) (w : World) (p : Nat)
    (ps : List String)
    (hmo : c.mappedStdouts = []) (hme : c.mappedStderrs = [])
    (hso : c.stdout = some ps) (hse : c.stderr = none) (hi : c.idx < ps.length) :
    Run rt c w p =
      { outcome := Outcome.returned (maybeReturnError (c.capture p (w.cmds p).Stdin)).1,
        exec := (maybeReturnError (c.capture p (w.cmds p).Stdin)).2,
        world := pidStep c
          (match (w.cmds p).Stdout with
            | some o => w.Fprint o ps[c.idx]
            | none => w) p } := by
  have hi2 : ¬ ps.length ≤ c.idx := by omega
  unfold Run pidStep
  cases hS : (w.cmds p).Stdout <;>
    simp [hmo, hme, hso, hse, rangeStdouts_nil, rangeStderrs_nil, hi, hi2, hS]

theorem Run_positional_stderr (rt : Runtime) (c : capturingExecutor) (w : World) (p : Nat)
    (ps : List String)
    (hmo : c.mappedStdouts = []) (hme : c.mappedStderrs = [])
    (hso : c.stdout = none) (hse : c.stderr = some ps) (hi : c.idx < ps.length) :
    Run rt c w p =
      { outcome := Outcome.returned (maybeReturnError (c.capture p (w.cmds p).Stdin)).1,
        exec := (maybeReturnError (c.capture p (w.cmds p).Stdin)).2,
        world :=
          match (w.cmds p).Stderr with
            | some o => (pidStep c w p).Fprint o ps[c.idx]
            | none => pidStep c w p } := by
  have hi2 : ¬ ps.length ≤ c.idx := by omega
  unfold Run pidStep
  cases hS : (w.cmds p).Stderr <;>
    simp [hmo, hme, hso, hse, rangeStdouts_nil, rangeStderrs_nil, hi, hi2, hS]

theorem Run_stdout_match (rt : Runtime) (c : capturingExecutor) (w : World) (p : Nat)
    (hm : ∃ e ∈ c.mappedStdouts, e.1.MatchString ((w.cmds p).String rt.host) = true) :
    ∃ e ∈ c.mappedStdouts, e.1.MatchString ((w.cmds p).String rt.host) = true ∧
      Run rt c w p =
        match (w.cmds p).Stdout with
        | none =>
          { outcome := Outcome.panicked, exec := c.capture p (w.cmds p).Stdin, world := w }
        | some o =>
          { outcome := Outcome.returned (maybeReturnError (c.capture p (w.cmds p).Stdin)).1,
            exec := (maybeReturnError (c.capture p (w.cmds p).Stdin)).2,
            world := w.Fprint o e.2 } := by
  obtain ⟨e0, he0, hm0⟩ := hm
  cases hf : (rt.rangeStdouts c.mappedStdouts).find?
      (fun e => e.1.MatchString ((w.cmds p).String rt.host)) with
  | none =>
    rw [List.find?_eq_none] at hf
    have := hf e0 ((rt.rangeStdouts_perm _).mem_iff.mpr he0)
    simp [hm0] at this
  | some e =>
    refine ⟨e, (rt.rangeStdouts_perm _).mem_iff.mp (List.mem_of_find?_eq_some hf), ?_, ?_⟩
    · have := List.find?_some hf
      simpa using this
    · unfold Run
      cases hS : (w.cmds p).Stdout <;> simp [hf, hS]

theorem Run_sets_pid (rt : Runtime) (c : capturingExecutor) (w : World) (p : Nat)
    (hpid : c.pid ≠ 0)
    (hmo : ∀ e ∈ c.mappedStdouts, e.1.MatchString ((w.cmds p).String rt.host) = false)
    (hso : ∀ ps, c.stdout = some ps → c.idx < ps.length) :
    ((Run rt c w p).world.cmds p).Process = some c.pid := by
  unfold Run
  simp only [capture_config, capture_idx, find_rangeStdouts_none rt _ _ hmo]
  cases hs : c.stdout with
  | none =>
    simp only []
    repeat' split
    all_goals simp_all [World.setProcess, World.Fprint]
  | some ps =>
    have hi2 : ¬ ps.length ≤ c.idx := Nat.not_le.mpr (hso ps hs)
    simp only [ge_iff_le, hi2, if_false]
    cases hS : (w.cmds p).Stdout
    all_goals simp only []
    all_goals repeat' split
    all_goals simp_all [World.setProcess, World.Fprint]

/-! ### The test executor: serialized sequences of calls -/

theorem RunAll_config (c : capturingExecutor) (w : World) (calls : List Call) :
    (RunAll c w calls).1.stdout = c.stdout ∧ (RunAll c w calls).1.stderr = c.stderr ∧
    (RunAll c w calls).1.mappedStdouts = c.mappedStdouts ∧
    (RunAll c w calls).1.mappedStderrs = c.mappedStderrs ∧
    (RunAll c w calls).1.pid = c.pid ∧ (RunAll c w calls).1.err = c.err ∧
    (RunAll c w calls).1.errIdx = c.errIdx := by
  induction calls generalizing c w with
  | nil => exact ⟨rfl, rfl, rfl, rfl, rfl, rfl, rfl⟩
  | cons k ks ih =>
    obtain ⟨h1, h2, h3, h4, h5, h6, h7⟩ := Run_config k.rt c w k.cmd
    obtain ⟨g1, g2, g3, g4, g5, g6, g7⟩ := ih (Run k.rt c w k.cmd).exec (Run k.rt c w k.cmd).world
    simp only [RunAll]
    exact ⟨g1.trans h1, g2.trans h2, g3.trans h3, g4.trans h4, g5.trans h5, g6.trans h6,
      g7.trans h7⟩

theorem RunAll_idx (c : capturingExecutor) (w : World) (calls : List Call) :
    (RunAll c w calls).1.idx
      = c.idx + (RunSeq c w calls).countP (fun r => r.outcome.viaMaybeReturnError) := by
  induction calls generalizing c w with
  | nil => rfl
  | cons k ks ih =>
    simp only [RunAll, RunSeq, List.countP_cons, ih]
    rw [Run_idx k.rt c w k.cmd]
    omega

/-- A call on an executor without pattern-mapped payloads whose positional
payloads are not used up goes through `maybeReturnError`. -/
theorem Run_via_of_available (rt : Runtime) (c : capturingExecutor) (w : World) (p : Nat)
    (hmo : c.mappedStdouts = []) (hme : c.mappedStderrs = [])
    (hso : ∀ ps, c.stdout = some ps → c.idx < ps.length)
    (hse : ∀ ps, c.stderr = some ps → c.idx < ps.length) :
    (Run rt c w p).outcome.viaMaybeReturnError = true := by
  unfold Run
  simp only [capture_config, capture_idx, hmo, hme, rangeStdouts_nil, rangeStderrs_nil,
    List.find?_nil]
  cases hs : c.stdout with
  | none =>
    cases he : c.stderr with
    | none => simp
    | some qs =>
      have := hse qs he
      simp [Nat.not_le.mpr this]
  | some ps =>
    have h1 := hso ps hs
    cases hS : (w.cmds p).Stdout <;> cases he : c.stderr <;>
      simp [Nat.not_le.mpr h1]
    all_goals
      rename_i qs
      have := hse qs he
      simp [Nat.not_le.mpr this]

theorem RunAll_idx_of_available (c : capturingExecutor) (w : World) (calls : List Call)
    (hmo : c.mappedStdouts = []) (hme : c.mappedStderrs = [])
    (hso : ∀ ps, c.stdout = some ps → c.idx + calls.length ≤ ps.length)
    (hse : ∀ ps, c.stderr = some ps → c.idx + calls.length ≤ ps.length) :
    (RunAll c w calls).1.idx = c.idx + calls.length := by
  induction calls generalizing c w with
  | nil => rfl
  | cons k ks ih =>
    obtain ⟨h1, h2, h3, h4, _, _, _⟩ := Run_config k.rt c w k.cmd
    have hvia := Run_via_of_available k.rt c w k.cmd hmo hme
      (fun ps hps => by have := hso ps hps; simp only [List.length_cons] at this; omega)
      (fun ps hps => by have := hse ps hps; simp only [List.length_cons] at this; omega)
    have hidx := Run_idx k.rt c w k.cmd
    rw [hvia] at hidx
    simp only [if_true] at hidx
    simp only [RunAll]
    rw [ih _ _ (h3.trans hmo) (h4.trans hme), hidx]
    · simp only [List.length_cons]; omega
    · intro ps hps
      have := hso ps (h1.symm.trans hps)
      simp only [List.length_cons] at this
      omega
    · intro ps hps
      have := hse ps (h2.symm.trans hps)
      simp only [List.length_cons] at this
      omega

/-! ### The test executor: claims -/

/-- C2, amended: the call counter `idx` goes up by exactly one on every `Run`
invocation that returns nil or the injected error, and stays as it is on an
invocation that returns an exhausted-payload error (or panics); so after a
serialized sequence of calls `idx` has grown by the number of calls that came
back through `maybeReturnError`. -/
theorem idx_counts_calls_through_maybeReturnError (c : capturingExecutor) (w : World)
    (calls : List Call) :
    (∀ (rt : Runtime) (p : Nat),
      (Run rt c w p).exec.idx
        = c.idx + (if (Run rt c w p).outcome.viaMaybeReturnError then 1 else 0)) ∧
    (RunAll c w calls).1.idx
      = c.idx + (RunSeq c w calls).countP (fun r => r.outcome.viaMaybeReturnError) :=
  ⟨fun rt p => Run_idx rt c w p, RunAll_idx c w calls⟩

/-- C2 fails as stated: with one positional stdout payload, the second of two
calls returns the exhausted-payload error and leaves `idx` at 1, not 2. -/
theorem idx_unchanged_on_exhaustion :
    (RunSeq { stdout := some ["a"] } exampleWorld [exampleCall 0, exampleCall 0]).map
        (fun r => r.outcome)
      = [Outcome.returned none,
         Outcome.returned
           (some (Error.New "mock executor did not have enough registered stdouts"))] ∧
    (RunAll { stdout := some ["a"] } exampleWorld [exampleCall 0, exampleCall 0]).1.idx = 1 ∧
    (RunAll { stdout := some ["a"] } exampleWorld [exampleCall 0, exampleCall 0]).1.idx
      ≠ [exampleCall 0, exampleCall 0].length := by
  decide

/-- A call that comes back through `maybeReturnError` returns what
`maybeReturnError` gives on the executor as it is after the capture. -/
theorem Run_outcome_of_via (rt : Runtime) (c : capturingExecutor) (w : World) (p : Nat)
    (h : (Run rt c w p).outcome.viaMaybeReturnError = true) :
    (Run rt c w p).outcome
      = Outcome.returned (maybeReturnError (c.capture p (w.cmds p).Stdin)).1 := by
  revert h
  unfold Run
  simp only []
  repeat' split
  all_goals simp_all

theorem RunSeq_length (c : capturingExecutor) (w : World) (calls : List Call) :
    (RunSeq c w calls).length = calls.length := by
  induction calls generalizing c w with
  | nil => rfl
  | cons a as ih => simp only [RunSeq, List.length_cons, ih]

/-- C3, amended: on an executor holding the error `e` with `errIdx = N`,
`N ≥ 1` (what `AlwaysErrorOnCommandIndex(err, N)` stores), in every serialized
sequence of `Run` calls a call that does not end in an exhausted-payload error
(or a panic) returns the error when it is the `N`-th such call and nil
otherwise; so when no call up to the `k`-th runs out of positional payloads,
the `k`-th call returns the error when `k = N` and nil for every other `k`, and
with no payloads configured this is so for every call. -/
theorem errIdx_call_returns_err_when_counted (c : capturingExecutor) (w : World) (e : String)
    (N : Int) (hN : 1 ≤ N) (herr : c.err = some e) (herrIdx : c.errIdx = N) (hidx : c.idx = 0)
    (pre : List Call) (k : Call) :
    ((Run k.rt (RunAll c w pre).1 (RunAll c w pre).2 k.cmd).outcome.viaMaybeReturnError = true →
      (Run k.rt (RunAll c w pre).1 (RunAll c w pre).2 k.cmd).outcome
        = Outcome.returned
            (if (((RunSeq c w pre).countP (fun r => r.outcome.viaMaybeReturnError) + 1 : Nat)
                : Int) = N
              then some (Error.injected e) else none)) ∧
    ((∀ r ∈ RunSeq c w pre, r.outcome.viaMaybeReturnError = true) →
      (Run k.rt (RunAll c w pre).1 (RunAll c w pre).2 k.cmd).outcome.viaMaybeReturnError = true →
      (Run k.rt (RunAll c w pre).1 (RunAll c w pre).2 k.cmd).outcome
        = Outcome.returned
            (if ((pre.length + 1 : Nat) : Int) = N then some (Error.injected e) else none)) ∧
    (c.stdout = none → c.stderr = none → c.mappedStdouts = [] → c.mappedStderrs = [] →
      (Run k.rt (RunAll c w pre).1 (RunAll c w pre).2 k.cmd).outcome
        = Outcome.returned
            (if ((pre.length + 1 : Nat) : Int) = N then some (Error.injected e) else none)) := by
  obtain ⟨h1, h2, h3, h4, _, h6, h7⟩ := RunAll_config c w pre
  have hN0 : N ≠ 0 := by omega
  have hN1 : N > 0 := by omega
  have key : (Run k.rt (RunAll c w pre).1 (RunAll c w pre).2 k.cmd).outcome.viaMaybeReturnError
        = true →
      (Run k.rt (RunAll c w pre).1 (RunAll c w pre).2 k.cmd).outcome
        = Outcome.returned
            (if (((RunSeq c w pre).countP (fun r => r.outcome.viaMaybeReturnError) + 1 : Nat)
                : Int) = N
              then some (Error.injected e) else none) := by
    intro hvia
    rw [Run_outcome_of_via _ _ _ _ hvia]
    simp only [maybeReturnError_fst, capture_config, capture_idx, RunAll_idx, hidx, h6, h7,
      herr, herrIdx, Option.map_some']
    simp [hN0, hN1]
  refine ⟨key, ?_, ?_⟩
  · intro hall hvia
    have hcount : (RunSeq c w pre).countP (fun r => r.outcome.viaMaybeReturnError)
        = pre.length := by
      rw [← RunSeq_length c w pre]
      exact List.countP_eq_length.mpr (fun r hr => hall r hr)
    rw [key hvia, hcount]
  · intro hso hse hmo hme
    have hi : (RunAll c w pre).1.idx = pre.length := by
      rw [RunAll_idx_of_available c w pre hmo hme (by simp [hso]) (by simp [hse]), hidx]
      omega
    rw [Run_plain k.rt _ _ k.cmd (h3.trans hmo) (h4.trans hme) (h1.trans hso) (h2.trans hse)]
    simp only [maybeReturnError_fst, capture_config, capture_idx, hi, h6, h7, herr, herrIdx,
      Option.map_some']
    simp [hN0, hN1]

theorem errIdx_call_returns_err_when_counted_witness :
    (Run exampleRuntime
        (RunAll { err := some "exec err", errIdx := 3, captured := some [] } exampleWorld
          [exampleCall 0]).1
        (RunAll { err := some "exec err", errIdx := 3, captured := some [] } exampleWorld
          [exampleCall 0]).2 0).outcome = Outcome.returned none ∧
    (Run exampleRuntime
        (RunAll { err := some "exec err", errIdx := 3, captured := some [] } exampleWorld
          [exampleCall 0, exampleCall 0]).1
        (RunAll { err := some "exec err", errIdx := 3, captured := some [] } exampleWorld
          [exampleCall 0, exampleCall 0]).2 1).outcome
      = Outcome.returned (some (Error.injected "exec err")) ∧
    (Run exampleRuntime
        (RunAll { err := some "exec err", errIdx := 3, stdout := some ["a", "b", "c"] }
          exampleWorld [exampleCall 0, exampleCall 1]).1
        (RunAll { err := some "exec err", errIdx := 3, stdout := some ["a", "b", "c"] }
          exampleWorld [exampleCall 0, exampleCall 1]).2 2).outcome
      = Outcome.returned (some (Error.injected "exec err")) ∧
    (Run exampleRuntime
        (RunAll { err := some "exec err", errIdx := 2, stdout := some ["a"], stderr := some ["x", "y"] }
          exampleWorld [exampleCall 0, exampleCall 1]).1
        (RunAll { err := some "exec err", errIdx := 2, stdout := some ["a"], stderr := some ["x", "y"] }
          exampleWorld [exampleCall 0, exampleCall 1]).2 2).outcome
      = Outcome.returned
          (some (Error.New "mock executor did not have enough registered stdouts")) :=
  ⟨(errIdx_call_returns_err_when_counted
      { err := some "exec err", errIdx := 3, captured := some [] } exampleWorld "exec err" 3
      (by decide) rfl rfl rfl [exampleCall 0] (exampleCall 0)).2.2 rfl rfl rfl rfl,
    (errIdx_call_returns_err_when_counted
      { err := some "exec err", errIdx := 3, captured := some [] } exampleWorld "exec err" 3
      (by decide) rfl rfl rfl [exampleCall 0, exampleCall 0] (exampleCall 1)).2.2 rfl rfl rfl rfl,
    (errIdx_call_returns_err_when_counted
      { err := some "exec err", errIdx := 3, stdout := some ["a", "b", "c"] } exampleWorld
      "exec err" 3 (by decide) rfl rfl rfl [exampleCall 0, exampleCall 1] (exampleCall 2)).2.1
      (by decide) (by decide),
    by decide⟩

/-- C3 fails as stated: with the error to be returned on call 2 and one
positional stdout payload, call 1 returns nil and call 2 returns the
exhausted-payload error, not the injected error; with the error on call 3 and
the same payload, call 2 returns the exhausted-payload error, not nil. -/
theorem errIdx_call_exhausted_counterexample :
    (RunSeq { err := some "exec err", errIdx := 2, stdout := some ["a"] } exampleWorld
        [exampleCall 0, exampleCall 0]).map (fun r => r.outcome)
      = [Outcome.returned none,
         Outcome.returned
           (some (Error.New "mock executor did not have enough registered stdouts"))] ∧
    (RunSeq { err := some "exec err", errIdx := 3, stdout := some ["a"] } exampleWorld
        [exampleCall 0, exampleCall 0]).map (fun r => r.outcome)
      = [Outcome.returned none,
         Outcome.returned
           (some (Error.New "mock executor did not have enough registered stdouts"))] :=
  ⟨by decide, by decide⟩

/-- C4: on an executor with positional payloads `ps` for stdout (respectively
for stderr), no pattern-mapped payloads and no injected error, the call made
after `pre.length < ps.length` earlier calls returns nil and writes exactly the
payload `ps[pre.length]`, once, to the stream attached to its command as
`Stdout` (respectively `Stderr`); no other writer is touched. -/
theorem positional_payload_written (c : capturingExecutor) (w : World) (ps : List String)
    (hmo : c.mappedStdouts = []) (hme : c.mappedStderrs = []) (herr : c.err = none)
    (hidx : c.idx = 0) (pre : List Call) (k : Call) (hi : pre.length < ps.length) :
    (c.stdout = some ps → c.stderr = none →
      (Run k.rt (RunAll c w pre).1 (RunAll c w pre).2 k.cmd).outcome = Outcome.returned none ∧
      (Run k.rt (RunAll c w pre).1 (RunAll c w pre).2 k.cmd).world.writers
        = match ((RunAll c w pre).2.cmds k.cmd).Stdout with
          | some o => Function.update (RunAll c w pre).2.writers o
              ((RunAll c w pre).2.writers o ++ [ps[pre.length]])
          | none => (RunAll c w pre).2.writers) ∧
    (c.stdout = none → c.stderr = some ps →
      (Run k.rt (RunAll c w pre).1 (RunAll c w pre).2 k.cmd).outcome = Outcome.returned none ∧
      (Run k.rt (RunAll c w pre).1 (RunAll c w pre).2 k.cmd).world.writers
        = match ((RunAll c w pre).2.cmds k.cmd).Stderr with
          | some o => Function.update (RunAll c w pre).2.writers o
              ((RunAll c w pre).2.writers o ++ [ps[pre.length]])
          | none => (RunAll c w pre).2.writers) := by
  obtain ⟨h1, h2, h3, h4, _, h6, _⟩ := RunAll_config c w pre
  have hnil : (maybeReturnError
      ((RunAll c w pre).1.capture k.cmd ((RunAll c w pre).2.cmds k.cmd).Stdin)).1 = none := by
    simp [maybeReturnError_fst, h6, herr]
  constructor
  · intro hso hse
    have hidx2 : (RunAll c w pre).1.idx = pre.length := by
      rw [RunAll_idx_of_available c w pre hmo hme (by simp [hso]; omega) (by simp [hse]), hidx]
      omega
    rw [Run_positional_stdout k.rt _ _ k.cmd ps (h3.trans hmo) (h4.trans hme) (h1.trans hso)
      (h2.trans hse) (by omega)]
    refine ⟨by rw [hnil], ?_⟩
    simp only [hidx2]
    cases hS : ((RunAll c w pre).2.cmds k.cmd).Stdout <;>
      by_cases hp : (RunAll c w pre).1.pid = 0 <;>
      simp [pidStep, hp, World.setProcess, World.Fprint]
  · intro hso hse
    have hidx2 : (RunAll c w pre).1.idx = pre.length := by
      rw [RunAll_idx_of_available c w pre hmo hme (by simp [hso]) (by simp [hse]; omega), hidx]
      omega
    rw [Run_positional_stderr k.rt _ _ k.cmd ps (h3.trans hmo) (h4.trans hme) (h1.trans hso)
      (h2.trans hse) (by omega)]
    refine ⟨by rw [hnil], ?_⟩
    simp only [hidx2]
    cases hS : ((RunAll c w pre).2.cmds k.cmd).Stderr <;>
      by_cases hp : (RunAll c w pre).1.pid = 0 <;>
      simp [pidStep, hp, World.setProcess, World.Fprint]

theorem positional_payload_written_witness :
    [exampleCall 0, exampleCall 1].length < ["a", "b", "c"].length ∧
    (Run exampleRuntime
        (RunAll { stdout := some ["a", "b", "c"], captured := some [] } exampleWorld
          [exampleCall 0, exampleCall 1]).1
        (RunAll { stdout := some ["a", "b", "c"], captured := some [] } exampleWorld
          [exampleCall 0, exampleCall 1]).2 2).outcome = Outcome.returned none ∧
    (Run exampleRuntime
        (RunAll { stdout := some ["a", "b", "c"], captured := some [] } exampleWorld
          [exampleCall 0, exampleCall 1]).1
        (RunAll { stdout := some ["a", "b", "c"], captured := some [] } exampleWorld
          [exampleCall 0, exampleCall 1]).2 2).world.writers 4 = ["c"] ∧
    (Run exampleRuntime
        (RunAll { stderr := some ["a", "b", "c"] } exampleWorld [exampleCall 0, exampleCall 1]).1
        (RunAll { stderr := some ["a", "b", "c"] } exampleWorld [exampleCall 0, exampleCall 1]).2
        2).world.writers 5 = ["c"] := by
  have h := positional_payload_written { stdout := some ["a", "b", "c"], captured := some [] }
    exampleWorld ["a", "b", "c"] rfl rfl rfl rfl [exampleCall 0, exampleCall 1] (exampleCall 2)
    (by decide)
  have g := positional_payload_written { stderr := some ["a", "b", "c"] }
    exampleWorld ["a", "b", "c"] rfl rfl rfl rfl [exampleCall 0, exampleCall 1] (exampleCall 2)
    (by decide)
  refine ⟨by decide, (h.1 rfl rfl).1, ?_, ?_⟩
  · have h2 := (h.1 rfl rfl).2
    simp only [exampleCall] at h2 ⊢
    rw [h2]
    decide
  · have g2 := (g.2 rfl rfl).2
    simp only [exampleCall] at g2 ⊢
    rw [g2]
    decide

/-- C5: on an executor with `ps.length` positional stdout payloads and nothing
else, each of the first `ps.length` calls returns nil, and the call after them
returns a non-nil error (it does not panic) and writes nothing: it leaves the
memory as it found it. -/
theorem exhausted_stdouts_error (c : capturingExecutor) (w : World) (ps : List String)
    (hso : c.stdout = some ps) (hse : c.stderr = none)
    (hmo : c.mappedStdouts = []) (hme : c.mappedStderrs = []) (herr : c.err = none)
    (hidx : c.idx = 0) (pre : List Call) (k : Call) :
    (pre.length < ps.length →
      (Run k.rt (RunAll c w pre).1 (RunAll c w pre).2 k.cmd).outcome = Outcome.returned none) ∧
    (pre.length = ps.length →
      (Run k.rt (RunAll c w pre).1 (RunAll c w pre).2 k.cmd).outcome
        = Outcome.returned
            (some (Error.New "mock executor did not have enough registered stdouts")) ∧
      (Run k.rt (RunAll c w pre).1 (RunAll c w pre).2 k.cmd).world = (RunAll c w pre).2) := by
  obtain ⟨h1, h2, h3, h4, _, h6, _⟩ := RunAll_config c w pre
  constructor
  · intro hi
    have hidx2 : (RunAll c w pre).1.idx = pre.length := by
      rw [RunAll_idx_of_available c w pre hmo hme (by simp [hso]; omega) (by simp [hse]), hidx]
      omega
    rw [Run_positional_stdout k.rt _ _ k.cmd ps (h3.trans hmo) (h4.trans hme) (h1.trans hso)
      (h2.trans hse) (by omega)]
    simp [maybeReturnError_fst, h6, herr]
  · intro hi
    have hidx2 : (RunAll c w pre).1.idx = pre.length := by
      rw [RunAll_idx_of_available c w pre hmo hme (by simp [hso]; omega) (by simp [hse]), hidx]
      omega
    rw [Run_stdout_exhausted k.rt _ _ k.cmd ps (by simp [h3.trans hmo]) (h1.trans hso)
      (by omega)]
    exact ⟨rfl, rfl⟩

theorem exhausted_stdouts_error_witness :
    (Run exampleRuntime (RunAll { stdout := some ["a"] } exampleWorld []).1
        (RunAll { stdout := some ["a"] } exampleWorld []).2 0).outcome
      = Outcome.returned none ∧
    (Run exampleRuntime (RunAll { stdout := some ["a"] } exampleWorld [exampleCall 0]).1
        (RunAll { stdout := some ["a"] } exampleWorld [exampleCall 0]).2 0).outcome
      = Outcome.returned
          (some (Error.New "mock executor did not have enough registered stdouts")) ∧
    (Run exampleRuntime (RunAll { stdout := some ["a"] } exampleWorld [exampleCall 0]).1
        (RunAll { stdout := some ["a"] } exampleWorld [exampleCall 0]).2 0).world
      = (RunAll { stdout := some ["a"] } exampleWorld [exampleCall 0]).2 :=
  ⟨(exhausted_stdouts_error { stdout := some ["a"] } exampleWorld ["a"] rfl rfl rfl rfl rfl rfl
      [] (exampleCall 0)).1 (by decide),
    (exhausted_stdouts_error { stdout := some ["a"] } exampleWorld ["a"] rfl rfl rfl rfl rfl rfl
      [exampleCall 0] (exampleCall 0)).2 rfl⟩

/-- C6: when a registered stdout pattern matches the rendered command string
and a positional stdout payload is available for the call, what `Run` writes to
the command's stdout is exactly the payload of a matching pattern, in one
write, and nothing else is written anywhere: the positional payload is not
written.  (A command with no stdout attached has nothing written at all.)  When
a single entry matches, the payload is that entry's. -/
theorem mapped_stdout_takes_precedence (rt : Runtime) (c : capturingExecutor) (w : World)
    (p : Nat) (ps : List String)
    (hm : ∃ e ∈ c.mappedStdouts, e.1.MatchString ((w.cmds p).String rt.host) = true)
    (_hso : c.stdout = some ps) (_hi : c.idx < ps.length) :
    (∃ e ∈ c.mappedStdouts, e.1.MatchString ((w.cmds p).String rt.host) = true ∧
      (Run rt c w p).world.writers
        = match (w.cmds p).Stdout with
          | some o => Function.update w.writers o (w.writers o ++ [e.2])
          | none => w.writers) ∧
    (∀ e0 ∈ c.mappedStdouts,
      (∀ e ∈ c.mappedStdouts, e.1.MatchString ((w.cmds p).String rt.host) = true → e = e0) →
      (Run rt c w p).world.writers
        = match (w.cmds p).Stdout with
          | some o => Function.update w.writers o (w.writers o ++ [e0.2])
          | none => w.writers) := by
  obtain ⟨e, he, hme, hrun⟩ := Run_stdout_match rt c w p hm
  have key : (Run rt c w p).world.writers
      = match (w.cmds p).Stdout with
        | some o => Function.update w.writers o (w.writers o ++ [e.2])
        | none => w.writers := by
    rw [hrun]
    cases (w.cmds p).Stdout <;> rfl
  constructor
  · exact ⟨e, he, hme, key⟩
  · intro e0 _ huniq
    rw [← huniq e he hme]
    exact key

theorem mapped_stdout_takes_precedence_witness :
    (Run exampleRuntime
      { mappedStdouts := [({ MatchString := fun s => s == "command-that-does-not-exist" }, "mapped")],
        stdout := some ["positional"] } exampleWorld 0).world.writers 0 = ["mapped"] := by
  have h := (mapped_stdout_takes_precedence exampleRuntime
    { mappedStdouts := [({ MatchString := fun s => s == "command-that-does-not-exist" }, "mapped")],
      stdout := some ["positional"] } exampleWorld 0 ["positional"]
    ⟨_, List.mem_singleton.mpr rfl, by decide⟩ rfl (by decide)).2 _
      (List.mem_singleton.mpr rfl) (fun e he _ => List.mem_singleton.mp he)
  rw [h]
  decide

/-- C10, amended: on an executor with a non-zero synthetic process id, every
`Run` call in which no stdout pattern matches the rendered command string and
the positional stdout payloads, if there are any, are not used up sets the
submitted command's `Process` to a process with that pid, whatever the other
options are and however the call ends afterwards. -/
theorem pid_set_when_stdout_stage_passes (rt : Runtime) (c : capturingExecutor) (w : World)
    (p : Nat) (hpid : c.pid ≠ 0)
    (hmo : ∀ e ∈ c.mappedStdouts, e.1.MatchString ((w.cmds p).String rt.host) = false)
    (hso : ∀ ps, c.stdout = some ps → c.idx < ps.length) :
    ((Run rt c w p).world.cmds p).Process = some c.pid :=
  Run_sets_pid rt c w p hpid hmo hso

theorem pid_set_when_stdout_stage_passes_witness :
    ((Run exampleRuntime
      { pid := 42, stdout := some ["a"], stderr := some [], err := some "exec err",
        captured := some [] } exampleWorld 0).world.cmds 0).Process = some 42 :=
  pid_set_when_stdout_stage_passes exampleRuntime
    { pid := 42, stdout := some ["a"], stderr := some [], err := some "exec err",
      captured := some [] } exampleWorld 0 (by decide)
    (fun e he => absurd he (List.not_mem_nil e))
    (fun ps hps => by cases hps; decide)

/-- C10 fails as stated: with pid 42 configured, a call on which a stdout
pattern matches returns nil and leaves the command's `Process` nil, and so does
a call that finds the positional stdout payloads used up. -/
theorem pid_not_set_counterexample :
    (Run exampleRuntime { pid := 42, mappedStdouts := [({ MatchString := fun _ => true }, "out")] }
      exampleWorld 0).outcome = Outcome.returned none ∧
    ((Run exampleRuntime { pid := 42, mappedStdouts := [({ MatchString := fun _ => true }, "out")] }
      exampleWorld 0).world.cmds 0).Process = none ∧
    ((RunAll { pid := 42, stdout := some ["a"] } exampleWorld [exampleCall 0, exampleCall 1]).2.cmds
      1).Process = none := by
  decide

theorem Run_captured (rt : Runtime) (c : capturingExecutor) (w : World) (p : Nat) :
    (Run rt c w p).exec.captured
      = match c.captured with
        | some l => some (l ++ [p])
        | none => none := by
  unfold Run
  simp only []
  repeat' split
  all_goals simp_all [maybeReturnError_config, capturingExecutor.capture]

theorem RunAll_captured (c : capturingExecutor) (w : World) (calls : List Call) (l : List Nat)
    (h : c.captured = some l) :
    (RunAll c w calls).1.captured = some (l ++ calls.map (fun k => k.cmd)) := by
  induction calls generalizing c w l with
  | nil => simpa [RunAll] using h
  | cons k ks ih =>
    have h1 : (Run k.rt c w k.cmd).exec.captured = some (l ++ [k.cmd]) := by
      rw [Run_captured, h]
    simp only [RunAll, List.map_cons]
    rw [ih _ _ _ h1]
    simp

/-- When the command has both streams attached, or no pattern-mapped payloads
are registered, a call does not panic. -/
theorem Run_returns_of_streams (rt : Runtime) (c : capturingExecutor) (w : World) (p : Nat)
    (h : ((w.cmds p).Stdout ≠ none ∧ (w.cmds p).Stderr ≠ none) ∨
      (c.mappedStdouts = [] ∧ c.mappedStderrs = [])) :
    (Run rt c w p).outcome ≠ Outcome.panicked := by
  unfold Run
  simp only []
  rcases h with ⟨h1, h2⟩ | ⟨h1, h2⟩
  · repeat' split
    all_goals simp_all
  · simp only [capture_config, h1, h2, rangeStdouts_nil, rangeStderrs_nil, List.find?_nil]
    repeat' split
    all_goals simp_all

/-- C11 does not hold on the code: with a pattern-mapped stdout payload whose
pattern matches, `Run` on a command that has no stdout attached reaches the
write to the absent stream and panics, and so do `Start` and `RunCancellable`;
the same happens with a pattern-mapped stderr payload and no stderr attached.
(The positional payloads are written under `if cmd.Stdout != nil`; the
pattern-mapped ones are not.) -/
theorem Run_panics_on_nil_stream :
    (Run exampleRuntime { mappedStdouts := [({ MatchString := fun _ => true }, "out")] }
      bareWorld 0).outcome = Outcome.panicked ∧
    (Start exampleRuntime { mappedStdouts := [({ MatchString := fun _ => true }, "out")] }
      bareWorld 0).outcome = Outcome.panicked ∧
    (RunCancellable exampleRuntime () { mappedStdouts := [({ MatchString := fun _ => true }, "out")] }
      bareWorld 0).outcome = Outcome.panicked ∧
    (Run exampleRuntime { mappedStderrs := [({ MatchString := fun _ => true }, "err")] }
      bareWorld 0).outcome = Outcome.panicked := by
  decide

/-- C12: on an executor that captures to a list, after any serialized sequence
of `Run` calls the list holds what it held before followed by the submitted
commands (their addresses), one per call and in call order, whatever each call
returned. -/
theorem captured_holds_submitted_commands (c : capturingExecutor) (w : World)
    (calls : List Call) (l : List Nat) (h : c.captured = some l) :
    (RunAll c w calls).1.captured = some (l ++ calls.map (fun k => k.cmd)) :=
  RunAll_captured c w calls l h

theorem captured_holds_submitted_commands_witness :
    (RunSeq { captured := some [], stdout := some ["a", "b"], err := some "exec err", errIdx := 2 }
        exampleWorld [exampleCall 7, exampleCall 7, exampleCall 3, exampleCall 5]).map
        (fun r => r.outcome)
      = [Outcome.returned none, Outcome.returned (some (Error.injected "exec err")),
         Outcome.returned
           (some (Error.New "mock executor did not have enough registered stdouts")),
         Outcome.returned
           (some (Error.New "mock executor did not have enough registered stdouts"))] ∧
    (RunAll { captured := some [], stdout := some ["a", "b"], err := some "exec err", errIdx := 2 }
        exampleWorld [exampleCall 7, exampleCall 7, exampleCall 3, exampleCall 5]).1.captured
      = some [7, 7, 3, 5] :=
  ⟨by decide,
    captured_holds_submitted_commands
      { captured := some [], stdout := some ["a", "b"], err := some "exec err", errIdx := 2 }
      exampleWorld [exampleCall 7, exampleCall 7, exampleCall 3, exampleCall 5] [] rfl⟩

/-! ### The test executor: a matching stdout pattern -/

/-- When every matching stdout pattern carries the same payload, the result of
a call on which a stdout pattern matches is the same for every order in which
the maps are visited. -/
theorem Run_stdout_match_order_free (rt rt2 : Runtime) (c : capturingExecutor) (w : World)
    (p : Nat) (hhost : rt2.host = rt.host)
    (hm : ∃ e ∈ c.mappedStdouts, e.1.MatchString ((w.cmds p).String rt.host) = true)
    (hsame : ∀ e1 ∈ c.mappedStdouts, ∀ e2 ∈ c.mappedStdouts,
      e1.1.MatchString ((w.cmds p).String rt.host) = true →
      e2.1.MatchString ((w.cmds p).String rt.host) = true → e1.2 = e2.2) :
    Run rt2 c w p = Run rt c w p := by
  have hm2 : ∃ e ∈ c.mappedStdouts, e.1.MatchString ((w.cmds p).String rt2.host) = true := by
    rw [hhost]; exact hm
  obtain ⟨e, he, hme, hrun⟩ := Run_stdout_match rt c w p hm
  obtain ⟨e2, he2, hme2, hrun2⟩ := Run_stdout_match rt2 c w p hm2
  rw [hhost] at hme2
  rw [hrun, hrun2, hsame e2 he2 e he hme2 hme]

/-- On a call on which a stdout pattern matches: no error made by `errors.New`
is returned, no writer other than the command's stdout changes, and when the
command has a stdout attached the call returns through `maybeReturnError` with
the counter one higher and the commands of the memory as they were. -/
theorem Run_stdout_match_frame (rt : Runtime) (c : capturingExecutor) (w : World) (p : Nat)
    (hm : ∃ e ∈ c.mappedStdouts, e.1.MatchString ((w.cmds p).String rt.host) = true) :
    (∀ msg, (Run rt c w p).outcome ≠ Outcome.returned (some (Error.New msg))) ∧
    (∀ a, (w.cmds p).Stdout ≠ some a → (Run rt c w p).world.writers a = w.writers a) ∧
    (Run rt c w p).world.cmds = w.cmds ∧
    (∀ o, (w.cmds p).Stdout = some o →
      (Run rt c w p).outcome.viaMaybeReturnError = true ∧
      (Run rt c w p).exec.idx = c.idx + 1) := by
  obtain ⟨e, he, hme, hrun⟩ := Run_stdout_match rt c w p hm
  rw [hrun]
  cases hS : (w.cmds p).Stdout with
  | none =>
    refine ⟨fun msg => by simp, fun a _ => rfl, rfl, fun o ho => by simp at ho⟩
  | some o =>
    refine ⟨?_, ?_, rfl, ?_⟩
    · intro msg hmsg
      have hv := maybeReturnError_via (c.capture p (w.cmds p).Stdin)
      simp only [] at hmsg
      rw [hmsg] at hv
      simp at hv
    · intro a ha
      have hne : a ≠ o := fun h => ha (by rw [h])
      simp [World.Fprint, Function.update, hne]
    · intro o2 _
      exact ⟨maybeReturnError_via _, by simp⟩

/-- C21, amended: when several registered stdout patterns match the rendered
command string, the payload written to the command's stdout is that of one of
the matching patterns, the one the visit of the map reaches first, whatever
the order of registration was; when all the matching patterns carry the same
payload, as when a single one matches, the result of `Run` is the same for
every order of the visit, and so a function of the configuration and the
command. -/
theorem mapped_stdout_payload_of_a_match (rt : Runtime) (c : capturingExecutor) (w : World)
    (p : Nat)
    (hm : ∃ e ∈ c.mappedStdouts, e.1.MatchString ((w.cmds p).String rt.host) = true) :
    (∃ e ∈ c.mappedStdouts, e.1.MatchString ((w.cmds p).String rt.host) = true ∧
      (rt.rangeStdouts c.mappedStdouts).find?
          (fun e => e.1.MatchString ((w.cmds p).String rt.host)) = some e ∧
      ∀ o, (w.cmds p).Stdout = some o →
        (Run rt c w p).world.writers = Function.update w.writers o (w.writers o ++ [e.2])) ∧
    ((∀ e1 ∈ c.mappedStdouts, ∀ e2 ∈ c.mappedStdouts,
        e1.1.MatchString ((w.cmds p).String rt.host) = true →
        e2.1.MatchString ((w.cmds p).String rt.host) = true → e1.2 = e2.2) →
      ∀ rt2 : Runtime, rt2.host = rt.host → Run rt2 c w p = Run rt c w p) := by
  constructor
  · obtain ⟨e0, he0, hm0⟩ := hm
    cases hf : (rt.rangeStdouts c.mappedStdouts).find?
        (fun e => e.1.MatchString ((w.cmds p).String rt.host)) with
    | none =>
      rw [List.find?_eq_none] at hf
      have := hf e0 ((rt.rangeStdouts_perm _).mem_iff.mpr he0)
      simp [hm0] at this
    | some e =>
      refine ⟨e, (rt.rangeStdouts_perm _).mem_iff.mp (List.mem_of_find?_eq_some hf), ?_, rfl, ?_⟩
      · have := List.find?_some hf
        simpa using this
      · intro o hS
        unfold Run
        simp [hf, hS, World.Fprint]
  · intro hsame rt2 hhost
    exact Run_stdout_match_order_free rt rt2 c w p hhost hm hsame

theorem mapped_stdout_payload_of_a_match_witness :
    (Run reversedRuntime
      { mappedStdouts :=
          [({ MatchString := fun s => s == "command-that-does-not-exist" }, "mapped"),
           ({ MatchString := fun s => s == "another-command" }, "other")] }
      exampleWorld 0).world.writers 0 = ["mapped"] := by
  have h := (mapped_stdout_payload_of_a_match exampleRuntime
    { mappedStdouts :=
        [({ MatchString := fun s => s == "command-that-does-not-exist" }, "mapped"),
         ({ MatchString := fun s => s == "another-command" }, "other")] }
    exampleWorld 0 ⟨_, List.mem_cons_self _ _, by decide⟩).2 (by decide) reversedRuntime rfl
  rw [h]
  decide

/-- C21 fails as stated: with two registered stdout patterns that both match,
a call that visits the map from its first entry writes the payload of the
pattern registered first, and a call that visits it from its last entry, which
Go allows, writes the payload of the other one; the result of `Run` is not
fixed by the configuration and the command. -/
theorem mapped_stdout_order_counterexample :
    (Run exampleRuntime
      { mappedStdouts := [({ MatchString := fun _ => true }, "first"),
                          ({ MatchString := fun _ => true }, "second")] }
      exampleWorld 0).world.writers 0 = ["first"] ∧
    (Run reversedRuntime
      { mappedStdouts := [({ MatchString := fun _ => true }, "first"),
                          ({ MatchString := fun _ => true }, "second")] }
      exampleWorld 0).world.writers 0 = ["second"] ∧
    exampleRuntime.host = reversedRuntime.host := by
  refine ⟨by decide, by decide, rfl⟩

/-- C22: for every state of the test executor, every context and every
command, `Start(cmd)` and `RunCancellable(ctx, cmd)` give the result of
`Run(cmd)`: the same returned error, the same executor state afterwards and
the same memory, streams included; the context makes no difference. -/
theorem Start_RunCancellable_eq_Run {Ctx : Type} (rt : Runtime) (ctx ctx2 : Ctx)
    (c : capturingExecutor) (w : World) (p : Nat) :
    Start rt c w p = Run rt c w p ∧
    RunCancellable rt ctx c w p = Run rt c w p ∧
    RunCancellable rt ctx c w p = RunCancellable rt ctx2 c w p :=
  ⟨rfl, rfl, rfl⟩

/-- C23 does not hold on the code: with a matching stdout pattern, a call on a
command that has no stdout attached does not return after writing the payload
and bumping the counter; it panics at the write and the counter stays at 0.
On a command with its streams attached the same executor returns nil with the
counter at 1, the payload on stdout and nothing on stderr, although a stderr
pattern matches and the positional stderr payloads are used up. -/
theorem stdout_match_panics_without_stdout :
    (Run exampleRuntime
      { mappedStdouts := [({ MatchString := fun _ => true }, "out")],
        mappedStderrs := [({ MatchString := fun _ => true }, "err")], stderr := some [] }
      bareWorld 0).outcome = Outcome.panicked ∧
    (Run exampleRuntime
      { mappedStdouts := [({ MatchString := fun _ => true }, "out")],
        mappedStderrs := [({ MatchString := fun _ => true }, "err")], stderr := some [] }
      bareWorld 0).exec.idx = 0 ∧
    (Run exampleRuntime
      { mappedStdouts := [({ MatchString := fun _ => true }, "out")],
        mappedStderrs := [({ MatchString := fun _ => true }, "err")], stderr := some [] }
      exampleWorld 0).outcome = Outcome.returned none ∧
    (Run exampleRuntime
      { mappedStdouts := [({ MatchString := fun _ => true }, "out")],
        mappedStderrs := [({ MatchString := fun _ => true }, "err")], stderr := some [] }
      exampleWorld 0).exec.idx = 1 ∧
    (Run exampleRuntime
      { mappedStdouts := [({ MatchString := fun _ => true }, "out")],
        mappedStderrs := [({ MatchString := fun _ => true }, "err")], stderr := some [] }
      exampleWorld 0).world.writers 0 = ["out"] ∧
    (Run exampleRuntime
      { mappedStdouts := [({ MatchString := fun _ => true }, "out")],
        mappedStderrs := [({ MatchString := fun _ => true }, "err")], stderr := some [] }
      exampleWorld 0).world.writers 1 = [] :=
  ⟨by decide, by decide, by decide, by decide, by decide, by decide⟩

end testshell

namespace brew

/-! ### `brew/info.go` -/

/-- C8: whenever `VersionMeetsOrExceedsMinimum` returns a non-nil error, its
boolean result is true, whatever the command did and whatever the libraries
answered. -/
theorem error_implies_true {V : Type} (lib : Lib V) (c : CarafeConfig)
    (item minimumVersion : String)
    (h : (VersionMeetsOrExceedsMinimum lib c item minimumVersion).2 ≠ none) :
    (VersionMeetsOrExceedsMinimum lib c item minimumVersion).1 = true := by
  revert h
  unfold VersionMeetsOrExceedsMinimum
  repeat' split
  all_goals simp

theorem error_implies_true_witness :
    (VersionMeetsOrExceedsMinimum
        { Unmarshal := fun _ => Except.ok [], NewVersion := fun _ => Except.ok 0,
          GreaterThanOrEqual := fun a b => decide (b ≤ a) : Lib Nat }
        { RunBrew := fun _ => ("[]", none) } "htop" "1.2.0").2 = some Error.emptyJSONArray ∧
    (VersionMeetsOrExceedsMinimum
        { Unmarshal := fun _ => Except.ok [], NewVersion := fun _ => Except.ok 0,
          GreaterThanOrEqual := fun a b => decide (b ≤ a) : Lib Nat }
        { RunBrew := fun _ => ("[]", none) } "htop" "1.2.0").1 = true :=
  ⟨rfl, error_implies_true _ _ "htop" "1.2.0" (by decide)⟩

theorem matchRevisionHere_iff (l : List Char) :
    matchRevisionHere l = true ↔
      ∃ d, l = '_' :: d ∧ d ≠ [] ∧ ∀ ch ∈ d, ch.isDigit = true := by
  constructor
  · intro h
    unfold matchRevisionHere at h
    split at h
    · rename_i d ds
      exact ⟨d :: ds, rfl, List.cons_ne_nil _ _, by simpa using h⟩
    · exact absurd h (by simp)
  · rintro ⟨d, rfl, hne, hd⟩
    cases d with
    | nil => exact absurd rfl hne
    | cons x xs =>
      unfold matchRevisionHere
      simpa using hd

theorem replaceAllRevision_append (base d : List Char) (hne : d ≠ [])
    (hd : ∀ ch ∈ d, ch.isDigit = true) :
    replaceAllRevision (base ++ '_' :: d) = base := by
  induction base with
  | nil =>
    have hm : matchRevisionHere ('_' :: d) = true :=
      (matchRevisionHere_iff _).mpr ⟨d, rfl, hne, hd⟩
    simp [replaceAllRevision, hm]
  | cons c bs ih =>
    have hm : matchRevisionHere (c :: (bs ++ '_' :: d)) = false := by
      cases hb : matchRevisionHere (c :: (bs ++ '_' :: d)) with
      | false => rfl
      | true =>
        obtain ⟨d2, h2, _, hd2⟩ := (matchRevisionHere_iff _).mp hb
        have htail : bs ++ '_' :: d = d2 := (List.cons.inj h2).2
        have hmem : '_' ∈ d2 := by rw [← htail]; simp
        exact absurd (hd2 _ hmem) (by decide)
    simp [replaceAllRevision, hm, ih]

theorem replaceAllRevision_id (l : List Char)
    (h : ¬ ∃ base d, l = base ++ '_' :: d ∧ d ≠ [] ∧ ∀ ch ∈ d, ch.isDigit = true) :
    replaceAllRevision l = l := by
  induction l with
  | nil => rfl
  | cons c cs ih =>
    have hm : matchRevisionHere (c :: cs) = false := by
      cases hb : matchRevisionHere (c :: cs) with
      | false => rfl
      | true =>
        obtain ⟨d, h2, hne, hd⟩ := (matchRevisionHere_iff _).mp hb
        exact absurd ⟨[], d, h2, hne, hd⟩ h
    have hcs : ¬ ∃ base d, cs = base ++ '_' :: d ∧ d ≠ [] ∧ ∀ ch ∈ d, ch.isDigit = true := by
      rintro ⟨base, d, h2, hne, hd⟩
      exact h ⟨c :: base, d, by rw [h2]; rfl, hne, hd⟩
    simp [replaceAllRevision, hm, ih hcs]

theorem data_eq_of_eq_append (v base d : String) (h : v = base ++ "_" ++ d) :
    v.data = base.data ++ '_' :: d.data := by
  subst h
  simp [String.data_append]

/-- C9: if `v = base ++ "_" ++ d` with `d` a non-empty run of ASCII digits (at
the very end of `v`), `stripBrewRevision v` is `base`; otherwise it is `v`. -/
theorem stripBrewRevision_spec (v : String) :
    (∀ base d : String, v = base ++ "_" ++ d → d ≠ "" → (∀ ch ∈ d.data, ch.isDigit = true) →
      stripBrewRevision v = base) ∧
    ((¬ ∃ base d : String, v = base ++ "_" ++ d ∧ d ≠ "" ∧ ∀ ch ∈ d.data, ch.isDigit = true) →
      stripBrewRevision v = v) := by
  constructor
  · intro base d hv hne hd
    have hne2 : d.data ≠ [] := fun h0 => hne (String.ext h0)
    unfold stripBrewRevision
    rw [data_eq_of_eq_append v base d hv, replaceAllRevision_append _ _ hne2 hd]
  · intro h
    unfold stripBrewRevision
    rw [replaceAllRevision_id]
    rintro ⟨base, d, h2, hne, hd⟩
    refine h ⟨String.mk base, String.mk d, ?_, ?_, hd⟩
    · apply String.ext
      simp [String.data_append, h2]
    · intro h0
      exact hne (congrArg String.data h0)

theorem stripBrewRevision_spec_witness :
    stripBrewRevision "2.52.0_12" = "2.52.0" ∧ stripBrewRevision "2.52.0" = "2.52.0" ∧
      stripBrewRevision "" = "" :=
  ⟨(stripBrewRevision_spec "2.52.0_12").1 "2.52.0" "12" (by decide) (by decide) (by decide),
    (stripBrewRevision_spec "2.52.0").2 (by
      rintro ⟨base, d, h, _, _⟩
      have hd := data_eq_of_eq_append _ _ _ h
      have hm : '_' ∈ "2.52.0".data := by rw [hd]; simp
      exact absurd hm (by decide)),
    (stripBrewRevision_spec "").2 (by
      rintro ⟨base, d, h, _, _⟩
      have hlen := congrArg String.length h
      have h1 : "_".length = 1 := rfl
      simp only [String.length_append, h1] at hlen
      have h0 : "".length = 0 := rfl
      omega)⟩

/-- C16: `installed(output)` returns the parse error when the output does not
parse as a JSON array of formulae, and an error when the array is empty;
otherwise it returns `(false, nil)` when the first formula's installed list is
empty and `(true, nil)` when it is not, whatever formulae follow the first. -/
theorem installed_spec {V : Type} (lib : Lib V) (output : String) :
    (∀ e, lib.Unmarshal output = Except.error e → installed lib output = (false, some e)) ∧
    (lib.Unmarshal output = Except.ok [] →
      installed lib output = (false, some Error.emptyJSONArray)) ∧
    (∀ f rest, lib.Unmarshal output = Except.ok (f :: rest) → f.Installed = [] →
      installed lib output = (false, none)) ∧
    (∀ f rest, lib.Unmarshal output = Except.ok (f :: rest) → f.Installed ≠ [] →
      installed lib output = (true, none)) := by
  refine ⟨?_, ?_, ?_, ?_⟩
  · intro e he
    simp [installed, he]
  · intro he
    simp [installed, he]
  · intro f rest he hf
    simp [installed, he, hf]
  · intro f rest he hf
    simp [installed, he, hf]

theorem installed_spec_witness :
    installed exampleLib "not json" = (false, some (Error.external "invalid JSON")) ∧
    installed exampleLib "[]" = (false, some Error.emptyJSONArray) ∧
    installed exampleLib "[\x7b \"installed\": [] \x7d]" = (false, none) ∧
    installed exampleLib "[\x7b \"installed\": [\x7b \"version\": \"1.2.3\" \x7d] \x7d]"
      = (true, none) :=
  ⟨(installed_spec exampleLib "not json").1 (Error.external "invalid JSON") rfl,
    (installed_spec exampleLib "[]").2.1 rfl,
    (installed_spec exampleLib "[\x7b \"installed\": [] \x7d]").2.2.1
      { Name := "", Installed := [] } [] rfl rfl,
    (installed_spec exampleLib
      "[\x7b \"installed\": [\x7b \"version\": \"1.2.3\" \x7d] \x7d]").2.2.2
      { Name := "", Installed := [{ Version := "1.2.3" }] } [] rfl (by decide)⟩

/-- C17: `getVersion(output)` returns an error exactly when the output fails to
parse as a JSON array of formulae; for a parsed array it returns `("", nil)`
when the array is empty or the first formula has no installed entry, and
otherwise the version of the first installed entry of the first formula, with
a nil error. -/
theorem getVersion_spec {V : Type} (lib : Lib V) (output : String) :
    ((getVersion lib output).2 ≠ none ↔ ∃ e, lib.Unmarshal output = Except.error e) ∧
    (∀ e, lib.Unmarshal output = Except.error e → getVersion lib output = ("", some e)) ∧
    (lib.Unmarshal output = Except.ok [] → getVersion lib output = ("", none)) ∧
    (∀ f rest, lib.Unmarshal output = Except.ok (f :: rest) → f.Installed = [] →
      getVersion lib output = ("", none)) ∧
    (∀ f rest inst more, lib.Unmarshal output = Except.ok (f :: rest) →
      f.Installed = inst :: more → getVersion lib output = (inst.Version, none)) := by
  refine ⟨?_, ?_, ?_, ?_, ?_⟩
  · unfold getVersion
    cases hu : lib.Unmarshal output with
    | error e => simp
    | ok info =>
      cases info with
      | nil => simp
      | cons f rest => cases hf : f.Installed <;> simp [hf]
  · intro e he
    simp [getVersion, he]
  · intro he
    simp [getVersion, he]
  · intro f rest he hf
    simp [getVersion, he, hf]
  · intro f rest inst more he hf
    simp [getVersion, he, hf]

theorem getVersion_spec_witness :
    getVersion exampleLib "not json" = ("", some (Error.external "invalid JSON")) ∧
    getVersion exampleLib "[]" = ("", none) ∧
    getVersion exampleLib "[\x7b \"installed\": [] \x7d]" = ("", none) ∧
    getVersion exampleLib "[\x7b \"installed\": [\x7b \"version\": \"2.52.0_1\" \x7d] \x7d]"
      = ("2.52.0_1", none) :=
  ⟨(getVersion_spec exampleLib "not json").2.1 (Error.external "invalid JSON") rfl,
    (getVersion_spec exampleLib "[]").2.2.1 rfl,
    (getVersion_spec exampleLib "[\x7b \"installed\": [] \x7d]").2.2.2.1
      { Name := "", Installed := [] } [] rfl rfl,
    (getVersion_spec exampleLib
      "[\x7b \"installed\": [\x7b \"version\": \"2.52.0_1\" \x7d] \x7d]").2.2.2.2
      { Name := "", Installed := [{ Version := "2.52.0_1" }] } []
      { Version := "2.52.0_1" } [] rfl rfl⟩

/-- C18: when the command succeeds with an output whose first formula has a
first installed entry with a non-empty version `v`, and `stripBrewRevision(v)`
and the minimum version `m` both parse as versions, `VersionMeetsOrExceedsMinimum`
returns whether the first is greater than or equal to the second, with a nil
error. -/
theorem version_compared_to_minimum {V : Type} (lib : Lib V) (c : CarafeConfig)
    (item m out v : String) (f : HomebrewFormula) (rest : List HomebrewFormula)
    (inst : Installed) (more : List Installed) (pv pm : V)
    (hrun : c.RunBrew ["info", "--json", item] = (out, none))
    (hparse : lib.Unmarshal out = Except.ok (f :: rest))
    (hinst : f.Installed = inst :: more) (hv : inst.Version = v) (hne : v ≠ "")
    (hpv : lib.NewVersion (stripBrewRevision v) = Except.ok pv)
    (hpm : lib.NewVersion m = Except.ok pm) :
    VersionMeetsOrExceedsMinimum lib c item m = (lib.GreaterThanOrEqual pv pm, none) := by
  subst hv
  simp [VersionMeetsOrExceedsMinimum, infoOutput, hrun, installed, getVersion, hparse, hinst,
    hne, hpv, hpm]

theorem version_compared_to_minimum_witness :
    VersionMeetsOrExceedsMinimum exampleLib
        (outputConfig "[\x7b \"installed\": [\x7b \"version\": \"2.52.0_1\" \x7d] \x7d]")
        "git" "2.45.2" = (true, none) ∧
    VersionMeetsOrExceedsMinimum exampleLib
        (outputConfig "[\x7b \"installed\": [\x7b \"version\": \"2.52.0_1\" \x7d] \x7d]")
        "git" "2.53.0" = (false, none) :=
  ⟨(version_compared_to_minimum exampleLib
      (outputConfig "[\x7b \"installed\": [\x7b \"version\": \"2.52.0_1\" \x7d] \x7d]")
      "git" "2.45.2" "[\x7b \"installed\": [\x7b \"version\": \"2.52.0_1\" \x7d] \x7d]"
      "2.52.0_1" { Name := "", Installed := [{ Version := "2.52.0_1" }] } []
      { Version := "2.52.0_1" } [] [2, 52, 0] [2, 45, 2]
      rfl rfl rfl rfl (by decide) rfl rfl).trans (by decide),
    (version_compared_to_minimum exampleLib
      (outputConfig "[\x7b \"installed\": [\x7b \"version\": \"2.52.0_1\" \x7d] \x7d]")
      "git" "2.53.0" "[\x7b \"installed\": [\x7b \"version\": \"2.52.0_1\" \x7d] \x7d]"
      "2.52.0_1" { Name := "", Installed := [{ Version := "2.52.0_1" }] } []
      { Version := "2.52.0_1" } [] [2, 52, 0] [2, 53, 0]
      rfl rfl rfl rfl (by decide) rfl rfl).trans (by decide)⟩

/-- C20: for every item and every minimum version, one that does not parse as
a version included, when the command succeeds and its output is a non-empty
JSON array whose first formula has an empty installed list,
`VersionMeetsOrExceedsMinimum` returns `(true, nil)`. -/
theorem not_installed_meets_minimum {V : Type} (lib : Lib V) (c : CarafeConfig)
    (item m out : String) (f : HomebrewFormula) (rest : List HomebrewFormula)
    (hrun : c.RunBrew ["info", "--json", item] = (out, none))
    (hparse : lib.Unmarshal out = Except.ok (f :: rest))
    (hinst : f.Installed = []) :
    VersionMeetsOrExceedsMinimum lib c item m = (true, none) := by
  simp [VersionMeetsOrExceedsMinimum, infoOutput, hrun, installed, hparse, hinst]

theorem not_installed_meets_minimum_witness :
    exampleLib.NewVersion "not a version" = Except.error (Error.external "Malformed version") ∧
    VersionMeetsOrExceedsMinimum exampleLib (outputConfig "[\x7b \"installed\": [] \x7d]")
        "htop" "not a version" = (true, none) :=
  ⟨rfl,
    not_installed_meets_minimum exampleLib (outputConfig "[\x7b \"installed\": [] \x7d]")
      "htop" "not a version" "[\x7b \"installed\": [] \x7d]" { Name := "", Installed := [] } []
      rfl rfl rfl⟩

end brew
